import Mathlib

/-!
TravelingSA: simulated annealing for the Euclidean travelling salesman.

A shallow embedding of `src/TravelingSA.cpp`.

* `std::vector<Town>` is a `List Town`; iterator arithmetic (`begin() + i`) is an
  `Int` offset that must lie inside the vector, otherwise the operation is undefined
  and the embedding returns `Fault.undefined`.
* `rand()` is an explicit source of raw draws: a finite list of naturals, consumed from
  the front.  A loop that asks for a draw when none is left has not returned on that
  sequence of draws: `Fault.starved`.
* `int` is `Int` (vector sizes and coordinates stay far below `2^31`).  The one sum whose
  operands are not bounded by a vector, `r % max + min` of `i_rand`, is also given in
  32-bit `int` (`i_rand_int`); the two agree wherever the sum fits, as it does at every
  call of the source (`min` is 0 or 1, `max` a size or 2 or 25).
* `double` is an arbitrary type `α` carrying the operations the program uses; `sqrt` and
  `exp` are passed as functions.  Nothing is assumed about rounding, so what is proved
  for every `α` holds for IEEE doubles.  Only the range of `d_rand` is stated for the
  exact quotient, in a linear ordered field: rounding is monotone and keeps 0 and 1.
* `RAND_MAX` comes from `<stdlib.h>` and is a parameter.
-/

namespace TravelingSA

/-! ## Constants (lines 10-12) -/

def TOWNS_MAX : Int := 25
def X_MAX : Int := 25
def Y_MAX : Int := 25

/-! ## Data model (lines 15-28) -/

/-- A town: integer coordinates `x`, `y`. -/
structure Town where
  x : Int
  y : Int
deriving DecidableEq

/-- The member `Town::operator==`: equal `x` and equal `y`. -/
def Town.opEq (a t : Town) : Bool :=
  if a.x = t.x ∧ a.y = t.y then true else false

/-- Two towns differ in a coordinate: `operator==` is false on them. -/
def Town.apart (a b : Town) : Prop := ¬ (a.x = b.x ∧ a.y = b.y)

/-- The path of the salesman.  The field `h_cost` of the source is never written nor
read, so only `towns` is kept. -/
structure Path where
  towns : List Town
deriving DecidableEq

/-- Ways in which a call does not produce a value. -/
inductive Fault where
  /-- The draws supplied ended before the call returned. -/
  | starved
  /-- Undefined behaviour: `% 0`, an iterator outside its vector, a negative size. -/
  | undefined
  /-- The exception `std::out_of_range` of `vector::at`. -/
  | outOfRange
deriving DecidableEq

/-- The raw values `rand()` will return, in order. -/
abbrev Draws := List Nat

/-! ## Random utility functions (lines 31-39) -/

/-- The value of `d_rand()` on the raw draw `r`: `(double)r / (double)RAND_MAX`. -/
def d_rand {α : Type} [IntCast α] [Div α] (RAND_MAX r : Int) : α :=
  (r : α) / (RAND_MAX : α)

/-- The value of `i_rand(min, max)` on the raw draw `r`: `r % max + min`, with the
truncating remainder of C++. -/
def i_rand (min max : Int) (r : Int) : Int :=
  Int.tmod r max + min

/-- The call `i_rand(min, max)`: one draw is consumed; `% 0` is undefined. -/
def i_rand_call (min max : Int) : Draws → Except Fault (Int × Draws)
  | [] => .error .starved
  | r :: rest => if max = 0 then .error .undefined else .ok (i_rand min max r, rest)

/-- The least value of a 32-bit `int`. -/
def INT_MIN : Int := -2147483648

/-- The greatest value of a 32-bit `int`. -/
def INT_MAX : Int := 2147483647

/-- The value an `int` holds after an arithmetic result `z`: two's complement of width
32, which is `z` itself when `INT_MIN ≤ z ≤ INT_MAX`. -/
def wrap_int (z : Int) : Int :=
  (z + 2147483648) % 4294967296 - 2147483648

/-- The value of `i_rand(min, max)` on the raw draw `r` with the sum of line 37 taken in
`int`: `r % max` lies between 0 and `r` and fits, `+ min` may not. -/
def i_rand_int (min max : Int) (r : Int) : Int :=
  wrap_int (Int.tmod r max + min)

/-! ## Vector primitives -/

/-- The function `SliceVector(v, s, e)` (lines 86-90): a fresh vector of size `e - s` receiving
`v[s..e)`. -/
def SliceVector (v : List Town) (s e : Int) : Except Fault (List Town) :=
  if 0 ≤ s ∧ s ≤ e ∧ e ≤ v.length then .ok ((v.drop s.toNat).take (e - s).toNat)
  else .error .undefined

/-- The call `v.erase(v.begin() + s, v.begin() + e)`. -/
def vector_erase (v : List Town) (s e : Int) : Except Fault (List Town) :=
  if 0 ≤ s ∧ s ≤ e ∧ e ≤ v.length then .ok (v.take s.toNat ++ v.drop e.toNat)
  else .error .undefined

/-- The call `v.insert(v.begin() + pos, seg.begin(), seg.end())`. -/
def vector_insert (v : List Town) (pos : Int) (seg : List Town) : Except Fault (List Town) :=
  if 0 ≤ pos ∧ pos ≤ v.length then .ok (v.take pos.toNat ++ seg ++ v.drop pos.toNat)
  else .error .undefined

/-! ## RandomSegment (lines 42-61) -/

/-- The function `RandomSegment(p)`: two indices drawn by `i_rand(1, p->size())` until they differ,
returned in increasing order. -/
def RandomSegment (p : List Town) : Draws → Except Fault ((Int × Int) × Draws)
  | [] => .error .starved
  | [_] => if (p.length : Int) = 0 then .error .undefined else .error .starved
  | r1 :: r2 :: rest =>
    if (p.length : Int) = 0 then .error .undefined
    else
      let s_index := i_rand 1 p.length r1
      let e_index := i_rand 1 p.length r2
      if s_index ≠ e_index then
        .ok (if s_index > e_index then (e_index, s_index) else (s_index, e_index), rest)
      else RandomSegment p rest

/-! ## GeneratePath(int) (lines 64-84) -/

/-- The `while (!success)` loop of lines 69-78: draw coordinates until the town is not
found in `towns`. -/
def GeneratePath_sample (towns : List Town) : Draws → Except Fault (Town × Draws)
  | r1 :: r2 :: rest =>
    let t_tmp : Town := ⟨i_rand 0 X_MAX r1, i_rand 0 Y_MAX r2⟩
    if towns.any (fun u => u.opEq t_tmp) then GeneratePath_sample towns rest
    else .ok (t_tmp, rest)
  | _ => .error .starved

/-- The `for` loop of lines 68-81 with `k` iterations left. -/
def GeneratePath_for : Nat → List Town → Draws → Except Fault (Path × Draws)
  | 0, towns, d => .ok (⟨towns⟩, d)
  | k + 1, towns, d =>
    match GeneratePath_sample towns d with
    | .error f => .error f
    | .ok (t_tmp, d1) => GeneratePath_for k (towns ++ [t_tmp]) d1

/-- The function `GeneratePath(int n)`: the loop runs for `i = 0, …, n - 2`. -/
def GeneratePath_int (n : Int) (d : Draws) : Except Fault (Path × Draws) :=
  GeneratePath_for (n - 1).toNat [] d

/-! ## GeneratePath(Path*, int) (lines 101-138) -/

/-- The branch `ct == 0` (lines 111-118): slice `[s, e)`, erase it, reverse the slice,
insert it back at `s`. -/
def Reverse (t_tmp : List Town) (s e : Int) : Except Fault (List Town) := do
  let segment ← SliceVector t_tmp s e
  let t1 ← vector_erase t_tmp s e
  vector_insert t1 s segment.reverse

/-- The branch `ct == 1` (lines 123-133): erase `[s, e)` from a copy, draw
`r_index = i_rand(1, t2_tmp.size())`, insert the slice at `r_index`. -/
def Relocate (t_tmp : List Town) (s e : Int) (d : Draws) :
    Except Fault (List Town × Draws) := do
  let t2_tmp ← vector_erase t_tmp s e
  let (r_index, d1) ← i_rand_call 1 t2_tmp.length d
  let segment ← SliceVector t_tmp s e
  let t2 ← vector_insert t2_tmp r_index segment
  pure (t2, d1)

/-- The function `GeneratePath(Path* p, int ct)`: a random segment, then Reverse for
`ct == 0`, Relocate for `ct == 1`, and the copy unchanged for any other `ct`. -/
def GeneratePath (p : Path) (ct : Int) (d : Draws) : Except Fault (Path × Draws) := do
  let t_tmp := p.towns
  let (s_index, d1) ← RandomSegment t_tmp d
  if ct = 0 then
    let t ← Reverse t_tmp s_index.1 s_index.2
    pure (⟨t⟩, d1)
  else if ct = 1 then
    let (t, d2) ← Relocate t_tmp s_index.1 s_index.2 d1
    pure (⟨t⟩, d2)
  else
    pure (⟨t_tmp⟩, d1)

/-! ## Cooling and cost (lines 141-162) -/

section Arithmetic

variable {α : Type} [Zero α] [IntCast α] [Add α] [Sub α] [Mul α] [Div α] [Neg α] [LT α]
  [∀ a b : α, Decidable (a < b)]

/-- The function `ExpCooling(&T, T_step)`: the new value of `*T`. -/
def ExpCooling (exp : α → α) (T T_step : α) : α :=
  T * exp (-T_step)

/-- The distance `ed` of one loop iteration of `EuclideanDistance` (lines 151-156). -/
def EuclideanDistance_ed (sqrt : α → α) (t1 t2 : Town) : α :=
  let x_delta : α := ((|t2.x - t1.x| : Int) : α)
  let y_delta : α := ((|t2.y - t1.y| : Int) : α)
  sqrt ((x_delta * x_delta) + (y_delta * y_delta))

/-- The loop of `EuclideanDistance` from the iterator at the head of `towns` up to
`end() - 1`, with `cost` accumulated so far. -/
def EuclideanDistance_loop (sqrt : α → α) : α → List Town → α
  | cost, t1 :: t2 :: rest =>
    EuclideanDistance_loop sqrt (cost + EuclideanDistance_ed sqrt t1 t2) (t2 :: rest)
  | cost, _ => cost

/-- The function `EuclideanDistance(p)`.  On an empty vector `end() - 1` precedes
`begin()` and the loop walks outside the vector. -/
def EuclideanDistance (sqrt : α → α) (p : Path) : Except Fault α :=
  match p.towns with
  | [] => .error .undefined
  | t :: ts => .ok (EuclideanDistance_loop sqrt 0 (t :: ts))

/-! ## The annealing loop of `main` (lines 165-219) -/

/-- The variables of `main` that are live at the `while` test of line 182. -/
structure LoopState (α : Type) where
  T : α
  p_curr : Path
  compareSteps : Int
  pathFound : Bool
  draws : Draws

/-- Where control stands. -/
inductive Control (α : Type) where
  /-- At the `while` test of line 182. -/
  | running (s : LoopState α)
  /-- After `exit(EXIT_SUCCESS)` of line 209, the path printed by line 208. -/
  | exited (p : Path)
  /-- After line 218, the path it printed. -/
  | finished (p : Path)
  /-- The program did not get further. -/
  | failed (f : Fault)

/-- The circuit of lines 187-192: `towns` with `towns.at(0)` pushed at the back. -/
def circuit (p : Path) : Except Fault Path :=
  match p.towns with
  | [] => .error .outOfRange
  | t :: ts => .ok ⟨(t :: ts) ++ [t]⟩

/-- The acceptance test of lines 199-214 for a neighbour `p_new` at cost difference
`h_delta`; `d` holds the draws left after the neighbour was generated. -/
def acceptance (exp : α → α) (RAND_MAX : Int) (s : LoopState α) (p_new : Path) (h_delta : α)
    (d : Draws) : Control α :=
  if h_delta < 0 then
    .running { s with p_curr := p_new, pathFound := true, draws := d }
  else
    match d with
    | [] => .failed .starved
    | r :: d1 =>
      if exp ((-h_delta) / s.T) > (d_rand RAND_MAX r : α) then
        .running { s with p_curr := p_new, pathFound := true, draws := d1 }
      else if s.compareSteps = 0 then
        .exited s.p_curr
      else
        .running { s with compareSteps := s.compareSteps - 1, draws := d1 }

/-- One execution of the body of the `while` loop (lines 183-214). -/
def whileBody (sqrt exp : α → α) (RAND_MAX : Int) (s : LoopState α) : Control α :=
  match s.draws with
  | [] => .failed .starved
  | r :: d =>
    match GeneratePath s.p_curr (i_rand 0 2 r) d with
    | .error f => .failed f
    | .ok (p_new, d1) =>
      match circuit s.p_curr, circuit p_new with
      | .error f, _ => .failed f
      | _, .error f => .failed f
      | .ok p_curr_circuit, .ok p_new_circuit =>
        match EuclideanDistance sqrt p_curr_circuit, EuclideanDistance sqrt p_new_circuit with
        | .error f, _ => .failed f
        | _, .error f => .failed f
        | .ok h_current, .ok h_new =>
          let h_delta := h_new - h_current
          acceptance exp RAND_MAX s p_new h_delta d1

/-- Entry into the body of the `for` loop of line 179 at temperature `T`, or past it. -/
def forEnter (T_min : α) (T : α) (p_curr : Path) (d : Draws) : Control α :=
  if T > T_min then
    .running { T := T, p_curr := p_curr, compareSteps := 100 * p_curr.towns.length,
               pathFound := false, draws := d }
  else .finished p_curr

/-- One step of `main` from the `while` test: either the body runs once, or the
`while` loop is left, the temperature cools and the `for` test is taken. -/
def step (sqrt exp : α → α) (RAND_MAX : Int) (T_min T_step : α) : Control α → Control α
  | .running s =>
    if s.compareSteps ≥ 0 ∧ s.pathFound = false then whileBody sqrt exp RAND_MAX s
    else forEnter T_min (ExpCooling exp s.T T_step) s.p_curr s.draws
  | c => c

/-- The start of `main` (lines 170-179) from a given initial path count `n`. -/
def start (T_max T_min : α) (n : Int) (d : Draws) : Control α :=
  match GeneratePath_int n d with
  | .error f => .failed f
  | .ok (p_curr, d1) => forEnter T_min T_max p_curr d1

/-- The state of `main` after `k` steps. -/
def run (sqrt exp : α → α) (RAND_MAX : Int) (T_min T_step : α) : Nat → Control α → Control α
  | 0, c => c
  | k + 1, c => run sqrt exp RAND_MAX T_min T_step k (step sqrt exp RAND_MAX T_min T_step c)

/-- The path held in `p_curr` (or printed last), if the program got that far. -/
def Control.path : Control α → Option Path
  | .running s => some s.p_curr
  | .exited p => some p
  | .finished p => some p
  | .failed _ => none

/-- The `while` loop of lines 182-215 run for at most `k` executions of its body,
from the state `s` with `n` executions counted so far: where control stands when the
loop is left (or the count `k` is used up), and the number of neighbours proposed. -/
def whileLoop (sqrt exp : α → α) (RAND_MAX : Int) : Nat → LoopState α → Nat → Control α × Nat
  | 0, s, n => (.running s, n)
  | k + 1, s, n =>
    if s.compareSteps ≥ 0 ∧ s.pathFound = false then
      match whileBody sqrt exp RAND_MAX s with
      | .running s1 => whileLoop sqrt exp RAND_MAX k s1 (n + 1)
      | c => (c, n + 1)
    else (.running s, n)

/-- The cost as the specification words it: the distances between consecutive towns,
summed in sequence order; when `closed`, the distance from the last town back to the
first is added. -/
def tourLength (sqrt : α → α) (towns : List Town) (closed : Bool) : α :=
  let open_cost := (List.zipWith (EuclideanDistance_ed sqrt) towns towns.tail).foldl (· + ·) 0
  match closed, towns.getLast?, towns.head? with
  | true, some t_last, some t_first => open_cost + EuclideanDistance_ed sqrt t_last t_first
  | _, _, _ => open_cost

end Arithmetic

/-- Floor of the square root, by search from above: the integers with this `sqrt`
serve as a small arithmetic in which the cost can be evaluated. -/
def isqrt_from : Nat → Nat → Nat
  | 0, _ => 0
  | k + 1, n => if (k + 1) * (k + 1) ≤ n then k + 1 else isqrt_from k n

/-- The function `isqrt_from` on integers, started at the argument itself. -/
def isqrt (z : Int) : Int := isqrt_from z.toNat z.toNat


/-! ## Facts about the primitives -/

theorem i_rand_bounds (min max r : Int) (hr : 0 ≤ r) (hmax : 1 ≤ max) :
    min ≤ i_rand min max r ∧ i_rand min max r < min + max := by
  unfold i_rand
  rw [Int.tmod_eq_emod hr (by omega)]
  have h1 := Int.emod_nonneg r (show max ≠ 0 by omega)
  have h2 := Int.emod_lt_of_pos r (show 0 < max by omega)
  omega

theorem SliceVector_ok (v : List Town) (s e : Nat) (hse : s ≤ e) (he : e ≤ v.length) :
    SliceVector v s e = .ok ((v.drop s).take (e - s)) := by
  unfold SliceVector
  have h : (0:Int) ≤ s ∧ (s:Int) ≤ e ∧ (e:Int) ≤ v.length := by omega
  rw [if_pos h]
  have : ((e:Int) - s).toNat = e - s := by omega
  simp [this]

theorem vector_erase_ok (v : List Town) (s e : Nat) (hse : s ≤ e) (he : e ≤ v.length) :
    vector_erase v s e = .ok (v.take s ++ v.drop e) := by
  unfold vector_erase
  have h : (0:Int) ≤ s ∧ (s:Int) ≤ e ∧ (e:Int) ≤ v.length := by omega
  rw [if_pos h]
  simp

theorem vector_insert_ok (v seg : List Town) (pos : Nat) (hp : pos ≤ v.length) :
    vector_insert v pos seg = .ok (v.take pos ++ seg ++ v.drop pos) := by
  unfold vector_insert
  have h : (0:Int) ≤ pos ∧ (pos:Int) ≤ v.length := by omega
  rw [if_pos h]
  simp

/-- The Reverse branch on a segment inside the vector. -/
theorem Reverse_ok (t : List Town) (s e : Nat) (hse : s ≤ e) (he : e ≤ t.length) :
    Reverse t s e = .ok (t.take s ++ ((t.drop s).take (e - s)).reverse ++ t.drop e) := by
  unfold Reverse
  rw [SliceVector_ok t s e hse he, vector_erase_ok t s e hse he]
  simp only [bind, Except.bind]
  rw [vector_insert_ok _ _ s (by simp; omega)]
  have h1 : (t.take s ++ t.drop e).take s = t.take s := by
    rw [List.take_append_of_le_length (by simp; omega)]
    simp
  have h2 : (t.take s ++ t.drop e).drop s = t.drop e := by
    rw [List.drop_append_of_le_length (by simp; omega)]
    simp [List.drop_take]
  rw [h1, h2]


theorem slice_decomp (t : List Town) (s e : Nat) (hse : s ≤ e) :
    t.take s ++ ((t.drop s).take (e - s) ++ t.drop e) = t := by
  have h : t.drop e = (t.drop s).drop (e - s) := by
    rw [List.drop_drop]; congr 1; omega
  rw [h, List.take_append_drop, List.take_append_drop]

/-- The Relocate branch on a segment inside the vector that starts after index 0. -/
theorem Relocate_ok (t : List Town) (s e : Nat) (r : Nat) (d : Draws) (hs : 1 ≤ s)
    (hse : s ≤ e) (he : e ≤ t.length) :
    Relocate t s e (r :: d) =
      .ok ((t.take s ++ t.drop e).take (r % (t.take s ++ t.drop e).length + 1)
            ++ (t.drop s).take (e - s)
            ++ (t.take s ++ t.drop e).drop (r % (t.take s ++ t.drop e).length + 1), d) := by
  unfold Relocate
  rw [vector_erase_ok t s e hse he]
  simp only [bind, Except.bind]
  have hlen : 1 ≤ (t.take s ++ t.drop e).length := by simp; omega
  have hne : ((t.take s ++ t.drop e).length : Int) ≠ 0 := by omega
  simp only [i_rand_call, if_neg hne]
  rw [SliceVector_ok t s e hse he]
  have hi : i_rand 1 ((t.take s ++ t.drop e).length : Int) (r : Int)
      = ((r % (t.take s ++ t.drop e).length + 1 : Nat) : Int) := by
    unfold i_rand
    rw [Int.tmod_eq_emod (by omega) (by omega)]
    push_cast
    rfl
  rw [hi]
  simp only []
  rw [vector_insert_ok _ _ _ (by
    have := Nat.mod_lt r (show 0 < (t.take s ++ t.drop e).length by omega)
    omega)]
  rfl

/-- What `RandomSegment` returns: `1 ≤ s < e ≤ size`, leaving a suffix of the draws. -/
theorem RandomSegment_spec (p : List Town) :
    ∀ (d : Draws) (s e : Int) (d1 : Draws),
      RandomSegment p d = .ok ((s, e), d1) →
        1 ≤ s ∧ s < e ∧ e ≤ p.length ∧ d1.length + 2 ≤ d.length
  | [], s, e, d1, h => by simp [RandomSegment] at h
  | [_], s, e, d1, h => by
    unfold RandomSegment at h
    split at h <;> simp at h
  | r1 :: r2 :: rest, s, e, d1, h => by
    unfold RandomSegment at h
    by_cases hz : (p.length : Int) = 0
    · simp [hz] at h
    · rw [if_neg hz] at h
      have hpos : (1 : Int) ≤ p.length := by omega
      have b1 := i_rand_bounds 1 p.length r1 (by omega) hpos
      have b2 := i_rand_bounds 1 p.length r2 (by omega) hpos
      simp only [] at h
      by_cases hne : i_rand 1 (↑p.length) ↑r1 ≠ i_rand 1 (↑p.length) ↑r2
      · rw [if_pos hne] at h
        simp only [Except.ok.injEq, Prod.mk.injEq] at h
        obtain ⟨hse, hd⟩ := h
        subst hd
        by_cases hgt : i_rand 1 (↑p.length) ↑r1 > i_rand 1 (↑p.length) ↑r2
        · rw [if_pos hgt] at hse
          simp only [Prod.mk.injEq] at hse
          obtain ⟨h1, h2⟩ := hse
          subst h1; subst h2
          simp only [List.length_cons]
          omega
        · rw [if_neg hgt] at hse
          simp only [Prod.mk.injEq] at hse
          obtain ⟨h1, h2⟩ := hse
          subst h1; subst h2
          simp only [List.length_cons]
          omega
      · rw [if_neg hne] at h
        have ih := RandomSegment_spec p rest s e d1 h
        simp only [List.length_cons]
        omega


theorem Relocate_nil (t : List Town) (s e : Int) (f : List Town × Draws) :
    Relocate t s e [] ≠ .ok f := by
  unfold Relocate
  cases h : vector_erase t s e with
  | error x => simp [bind, Except.bind]
  | ok v => simp [bind, Except.bind, i_rand_call]

/-- The shape of every value `GeneratePath(Path*, int)` returns. -/
theorem GeneratePath_cases (p : Path) (ct : Int) (d : Draws) (q : Path) (d' : Draws)
    (h : GeneratePath p ct d = .ok (q, d')) :
    ∃ (s e : Nat) (d1 : Draws),
      RandomSegment p.towns d = .ok (((s : Int), (e : Int)), d1) ∧
      1 ≤ s ∧ s < e ∧ e ≤ p.towns.length ∧
      ((ct = 0 ∧ d' = d1 ∧
          q.towns = p.towns.take s ++ ((p.towns.drop s).take (e - s)).reverse
                      ++ p.towns.drop e) ∨
       (ct = 1 ∧ ∃ r : Nat, d1 = r :: d' ∧
          q.towns =
            (p.towns.take s ++ p.towns.drop e).take
                (r % (p.towns.take s ++ p.towns.drop e).length + 1)
              ++ (p.towns.drop s).take (e - s)
              ++ (p.towns.take s ++ p.towns.drop e).drop
                (r % (p.towns.take s ++ p.towns.drop e).length + 1)) ∨
       (ct ≠ 0 ∧ ct ≠ 1 ∧ d' = d1 ∧ q = p)) := by
  unfold GeneratePath at h
  dsimp only at h
  cases hRS : RandomSegment p.towns d with
  | error x => rw [hRS] at h; simp [bind, Except.bind] at h
  | ok v =>
    obtain ⟨⟨s, e⟩, d1⟩ := v
    rw [hRS] at h
    simp only [bind, Except.bind] at h
    obtain ⟨h1, h2, h3, -⟩ := RandomSegment_spec p.towns d s e d1 hRS
    obtain ⟨s, rfl⟩ := Int.eq_ofNat_of_zero_le (show 0 ≤ s by omega)
    obtain ⟨e, rfl⟩ := Int.eq_ofNat_of_zero_le (show 0 ≤ e by omega)
    have hs : 1 ≤ s := by omega
    have hse : s < e := by omega
    have he : e ≤ p.towns.length := by omega
    refine ⟨s, e, d1, rfl, hs, hse, he, ?_⟩
    by_cases c0 : ct = 0
    · left
      rw [if_pos c0, Reverse_ok p.towns s e (by omega) he] at h
      simp only [pure, Except.pure, Except.ok.injEq, Prod.mk.injEq] at h
      obtain ⟨hq, hd⟩ := h
      subst hq
      exact ⟨c0, hd.symm, rfl⟩
    · rw [if_neg c0] at h
      by_cases c1 : ct = 1
      · right; left
        rw [if_pos c1] at h
        cases d1 with
        | nil =>
          exfalso
          cases hR : Relocate p.towns (s : Int) (e : Int) [] with
          | error x => rw [hR] at h; simp at h
          | ok f => exact Relocate_nil _ _ _ f hR
        | cons r d2 =>
          rw [Relocate_ok p.towns s e r d2 hs (by omega) he] at h
          simp only [pure, Except.pure, Except.ok.injEq, Prod.mk.injEq] at h
          obtain ⟨hq, hd⟩ := h
          subst hq; subst hd
          exact ⟨c1, r, rfl, rfl⟩
      · right; right
        rw [if_neg c1] at h
        simp only [pure, Except.pure, Except.ok.injEq, Prod.mk.injEq] at h
        obtain ⟨hq, hd⟩ := h
        subst hq
        exact ⟨c0, c1, hd.symm, rfl⟩

/-- Every value `GeneratePath(Path*, int)` returns is a rearrangement of its argument. -/
theorem GeneratePath_perm (p : Path) (ct : Int) (d : Draws) (q : Path) (d' : Draws)
    (h : GeneratePath p ct d = .ok (q, d')) : q.towns.Perm p.towns := by
  obtain ⟨s, e, d1, -, hs, hse, he, hc⟩ := GeneratePath_cases p ct d q d' h
  have hdec := slice_decomp p.towns s e (by omega)
  rcases hc with ⟨-, -, hq⟩ | ⟨-, r, -, hq⟩ | ⟨-, -, -, hq⟩
  · rw [hq]
    conv_rhs => rw [← hdec]
    rw [List.append_assoc]
    exact List.Perm.append_left _ (List.Perm.append_right _ (List.reverse_perm _))
  · rw [hq]
    conv_rhs => rw [← hdec]
    generalize (r % (p.towns.take s ++ p.towns.drop e).length + 1) = i
    have h1 : ((p.towns.take s ++ p.towns.drop e).take i ++ (p.towns.drop s).take (e - s)
        ++ (p.towns.take s ++ p.towns.drop e).drop i).Perm
        ((p.towns.drop s).take (e - s) ++ ((p.towns.take s ++ p.towns.drop e).take i
          ++ (p.towns.take s ++ p.towns.drop e).drop i)) := by
      rw [← List.append_assoc]
      exact List.Perm.append_right _ List.perm_append_comm
    rw [List.take_append_drop] at h1
    refine h1.trans ?_
    rw [← List.append_assoc, ← List.append_assoc]
    exact List.Perm.append_right _ List.perm_append_comm
  · rw [hq]


/-! ## Facts about the annealing loop -/

theorem acceptance_path {α : Type} [Zero α] [IntCast α] [Div α] [Neg α] [LT α]
    [∀ a b : α, Decidable (a < b)] (exp : α → α) (RAND_MAX : Int) (s : LoopState α) (p_new : Path)
    (h_delta : α) (d : Draws) (p : Path)
    (h : (acceptance exp RAND_MAX s p_new h_delta d).path = some p) :
    p = s.p_curr ∨ p = p_new := by
  unfold acceptance at h
  split at h
  · simp only [Control.path, Option.some.injEq] at h
    exact Or.inr h.symm
  · split at h
    · simp [Control.path] at h
    · split at h
      · simp only [Control.path, Option.some.injEq] at h
        exact Or.inr h.symm
      · split at h
        · simp only [Control.path, Option.some.injEq] at h
          exact Or.inl h.symm
        · simp only [Control.path, Option.some.injEq] at h
          exact Or.inl h.symm

theorem forEnter_path {α : Type} [LT α] [∀ a b : α, Decidable (a < b)] (T_min T : α) (p_curr : Path) (d : Draws) :
    (forEnter T_min T p_curr d).path = some p_curr := by
  unfold forEnter
  split <;> rfl

section Loop

variable {α : Type} [Zero α] [IntCast α] [Add α] [Sub α] [Mul α] [Div α] [Neg α] [LT α]
  [∀ a b : α, Decidable (a < b)]

theorem whileBody_path (sqrt exp : α → α) (RAND_MAX : Int) (s : LoopState α) (p : Path)
    (h : (whileBody sqrt exp RAND_MAX s).path = some p) :
    p = s.p_curr ∨
      ∃ (ct : Int) (d : Draws) (d' : Draws), GeneratePath s.p_curr ct d = .ok (p, d') := by
  unfold whileBody at h
  split at h
  · simp [Control.path] at h
  · rename_i r d hd
    split at h
    · simp [Control.path] at h
    · rename_i p_new d1 hG
      split at h
      · simp [Control.path] at h
      · simp [Control.path] at h
      · split at h
        · simp [Control.path] at h
        · simp [Control.path] at h
        · rcases acceptance_path exp RAND_MAX s p_new _ d1 p h with h1 | h1
          · exact Or.inl h1
          · subst h1
            exact Or.inr ⟨_, _, _, hG⟩

theorem step_path (sqrt exp : α → α) (RAND_MAX : Int) (T_min T_step : α) (c : Control α)
    (p : Path) (h : (step sqrt exp RAND_MAX T_min T_step c).path = some p) :
    ∃ p0, c.path = some p0 ∧
      (p = p0 ∨ ∃ (ct : Int) (d : Draws) (d' : Draws), GeneratePath p0 ct d = .ok (p, d')) := by
  cases c with
  | running s =>
    refine ⟨s.p_curr, rfl, ?_⟩
    simp only [step] at h
    split at h
    · exact whileBody_path sqrt exp RAND_MAX s p h
    · rw [forEnter_path] at h
      simp only [Option.some.injEq] at h
      exact Or.inl h.symm
  | exited p0 => exact ⟨p0, rfl, Or.inl (by simpa [step, Control.path] using h.symm)⟩
  | finished p0 => exact ⟨p0, rfl, Or.inl (by simpa [step, Control.path] using h.symm)⟩
  | failed f => simp [step, Control.path] at h

/-- The path held after any number of steps is a rearrangement of the path held at the
start. -/
theorem run_perm (sqrt exp : α → α) (RAND_MAX : Int) (T_min T_step : α) :
    ∀ (k : Nat) (c : Control α) (p0 p : Path), c.path = some p0 →
      (run sqrt exp RAND_MAX T_min T_step k c).path = some p → p.towns.Perm p0.towns
  | 0, c, p0, p, h0, h => by
    simp only [run] at h
    rw [h0] at h
    simp only [Option.some.injEq] at h
    rw [h]
  | k + 1, c, p0, p, h0, h => by
    simp only [run] at h
    cases hp1 : (step sqrt exp RAND_MAX T_min T_step c).path with
    | none =>
      exfalso
      have hfail : ∀ (j : Nat) (c1 : Control α), c1.path = none →
          (run sqrt exp RAND_MAX T_min T_step j c1).path = none := by
        intro j
        induction j with
        | zero => intro c1 h1; simpa [run] using h1
        | succ j ih =>
          intro c1 h1
          simp only [run]
          apply ih
          cases c1 with
          | failed f => rfl
          | running s => simp [Control.path] at h1
          | exited q => simp [Control.path] at h1
          | finished q => simp [Control.path] at h1
      rw [hfail k _ hp1] at h
      simp at h
    | some p1 =>
      have ih := run_perm sqrt exp RAND_MAX T_min T_step k _ p1 p hp1 h
      obtain ⟨q0, hq0, hq⟩ := step_path sqrt exp RAND_MAX T_min T_step c p1 hp1
      rw [h0] at hq0
      simp only [Option.some.injEq] at hq0
      subst hq0
      rcases hq with hq | ⟨ct, d, d', hG⟩
      · subst hq; exact ih
      · exact ih.trans (GeneratePath_perm _ ct d p1 d' hG)

end Loop

/-! ## Neighbour generation keeps the towns and the start town -/

/-- On the draws `0, 1, 0` a path of at least two towns gets the segment `[1, 2)`, and
both operators return. -/
theorem GeneratePath_returns (p : Path) (ct : Int) (hp : 2 ≤ p.towns.length) :
    ∃ (q : Path) (d' : Draws), GeneratePath p ct [0, 1, 0] = .ok (q, d') := by
  have h0 : i_rand 1 (p.towns.length : Int) ((0 : Nat) : Int) = ((1 : Nat) : Int) := by
    unfold i_rand
    rw [Int.tmod_eq_emod (by omega) (by omega)]
    simp
  have h1 : i_rand 1 (p.towns.length : Int) ((1 : Nat) : Int) = ((2 : Nat) : Int) := by
    unfold i_rand
    rw [Int.tmod_eq_emod (by omega) (by omega)]
    rw [Int.emod_eq_of_lt (by omega) (by omega)]
    rfl
  have hRS : RandomSegment p.towns [0, 1, 0] = .ok ((((1 : Nat) : Int), ((2 : Nat) : Int)), [0]) := by
    unfold RandomSegment
    rw [if_neg (by omega)]
    simp only [h0, h1]
    rfl
  unfold GeneratePath
  dsimp only
  rw [hRS]
  simp only [bind, Except.bind]
  by_cases c0 : ct = 0
  · rw [if_pos c0, Reverse_ok p.towns 1 2 (by omega) hp]
    exact ⟨_, _, rfl⟩
  · rw [if_neg c0]
    by_cases c1 : ct = 1
    · rw [if_pos c1, Relocate_ok p.towns 1 2 0 [] (by omega) (by omega) hp]
      exact ⟨_, _, rfl⟩
    · rw [if_neg c1]
      exact ⟨_, _, rfl⟩

/-- C1. For every path `p` with at least 2 towns, either operator choice (`ct = 0`
Reverse, `ct = 1` Relocate) and every sequence of draws on which the call returns, the
towns of `GeneratePath(p, ct)` are a permutation of the towns of `p` (same length, same
multiset), and such draws exist.  Hence, from every point of `main` holding a path `p0`
(the initial path at the start), the path held after any number `k` of steps of the
annealing loop is a permutation of `p0`. -/
theorem GeneratePath_permutation :
    (∀ (p : Path) (ct : Int) (d : Draws) (q : Path) (d' : Draws),
        2 ≤ p.towns.length → (ct = 0 ∨ ct = 1) → GeneratePath p ct d = .ok (q, d') →
          q.towns.length = p.towns.length ∧ q.towns.Perm p.towns) ∧
    (∀ (p : Path) (ct : Int), 2 ≤ p.towns.length → (ct = 0 ∨ ct = 1) →
        ∃ (d : Draws) (q : Path) (d' : Draws), GeneratePath p ct d = .ok (q, d')) ∧
    (∀ (α : Type) [Zero α] [IntCast α] [Add α] [Sub α] [Mul α] [Div α] [Neg α] [LT α]
        [∀ a b : α, Decidable (a < b)] (sqrt exp : α → α) (RAND_MAX : Int) (T_min T_step : α)
        (k : Nat) (c : Control α) (p0 p : Path), c.path = some p0 →
          (run sqrt exp RAND_MAX T_min T_step k c).path = some p → p.towns.Perm p0.towns) := by
  refine ⟨?_, ?_, ?_⟩
  · intro p ct d q d' _ _ h
    have hperm := GeneratePath_perm p ct d q d' h
    exact ⟨hperm.length_eq, hperm⟩
  · intro p ct hp _
    obtain ⟨q, d', h⟩ := GeneratePath_returns p ct hp
    exact ⟨_, q, d', h⟩
  · intro α _ _ _ _ _ _ _ _ _ sqrt exp RAND_MAX T_min T_step k c p0 p h0 h
    exact run_perm sqrt exp RAND_MAX T_min T_step k c p0 p h0 h

/-- Reverse on the draws `0, 2` of the path (0,0) (2,0) (1,0) (3,0), and three steps of
the loop from that path in integer arithmetic. -/
theorem GeneratePath_permutation_witness :
    ((⟨[⟨0, 0⟩, ⟨1, 0⟩, ⟨2, 0⟩, ⟨3, 0⟩]⟩ : Path).towns.length
        = (⟨[⟨0, 0⟩, ⟨2, 0⟩, ⟨1, 0⟩, ⟨3, 0⟩]⟩ : Path).towns.length ∧
      (⟨[⟨0, 0⟩, ⟨1, 0⟩, ⟨2, 0⟩, ⟨3, 0⟩]⟩ : Path).towns.Perm
        (⟨[⟨0, 0⟩, ⟨2, 0⟩, ⟨1, 0⟩, ⟨3, 0⟩]⟩ : Path).towns) ∧
    (⟨[⟨0, 0⟩, ⟨1, 0⟩, ⟨3, 0⟩, ⟨2, 0⟩]⟩ : Path).towns.Perm
        (⟨[⟨0, 0⟩, ⟨2, 0⟩, ⟨1, 0⟩, ⟨3, 0⟩]⟩ : Path).towns :=
  ⟨GeneratePath_permutation.1 ⟨[⟨0, 0⟩, ⟨2, 0⟩, ⟨1, 0⟩, ⟨3, 0⟩]⟩ 0 [0, 2, 7]
      ⟨[⟨0, 0⟩, ⟨1, 0⟩, ⟨2, 0⟩, ⟨3, 0⟩]⟩ [7] (by decide) (by decide) rfl,
   GeneratePath_permutation.2.2 Int isqrt (fun _ => 1) 32767 0 1 3
      (forEnter 0 1000 ⟨[⟨0, 0⟩, ⟨2, 0⟩, ⟨1, 0⟩, ⟨3, 0⟩]⟩ [0, 0, 2, 1, 1, 2, 5, 9])
      ⟨[⟨0, 0⟩, ⟨2, 0⟩, ⟨1, 0⟩, ⟨3, 0⟩]⟩ ⟨[⟨0, 0⟩, ⟨1, 0⟩, ⟨3, 0⟩, ⟨2, 0⟩]⟩ rfl rfl⟩


/-! ## The initial path -/

theorem GeneratePath_sample_spec (towns : List Town) :
    ∀ (d : Draws) (t : Town) (d1 : Draws), GeneratePath_sample towns d = .ok (t, d1) →
      (∀ u ∈ towns, ¬ (u.x = t.x ∧ u.y = t.y)) ∧
      (0 ≤ t.x ∧ t.x < X_MAX ∧ 0 ≤ t.y ∧ t.y < Y_MAX) ∧ d1.length + 2 ≤ d.length
  | [], t, d1, h => by simp [GeneratePath_sample] at h
  | [_], t, d1, h => by simp [GeneratePath_sample] at h
  | r1 :: r2 :: rest, t, d1, h => by
    unfold GeneratePath_sample at h
    dsimp only at h
    split at h
    · have ih := GeneratePath_sample_spec towns rest t d1 h
      simp only [List.length_cons]
      exact ⟨ih.1, ih.2.1, by omega⟩
    · rename_i hany
      simp only [Except.ok.injEq, Prod.mk.injEq] at h
      obtain ⟨ht, hd⟩ := h
      subst ht; subst hd
      have bx := i_rand_bounds 0 X_MAX r1 (by omega) (by decide)
      have by1 := i_rand_bounds 0 Y_MAX r2 (by omega) (by decide)
      refine ⟨?_, ⟨bx.1, by simpa using bx.2, by1.1, by simpa using by1.2⟩, by simp⟩
      intro u hu huv
      apply hany
      rw [List.any_eq_true]
      exact ⟨u, hu, by simp [Town.opEq, huv.1, huv.2]⟩

theorem GeneratePath_for_spec :
    ∀ (k : Nat) (towns : List Town) (d : Draws) (p : Path) (d1 : Draws),
      GeneratePath_for k towns d = .ok (p, d1) →
        p.towns.length = towns.length + k ∧
        (towns.Pairwise Town.apart → p.towns.Pairwise Town.apart)
  | 0, towns, d, p, d1, h => by
    simp only [GeneratePath_for, Except.ok.injEq, Prod.mk.injEq] at h
    obtain ⟨hp, -⟩ := h
    subst hp
    exact ⟨rfl, fun hpw => hpw⟩
  | k + 1, towns, d, p, d1, h => by
    unfold GeneratePath_for at h
    split at h
    · simp at h
    · rename_i t d2 hs
      obtain ⟨hnew, -, -⟩ := GeneratePath_sample_spec towns d t d2 hs
      obtain ⟨hlen, hpw⟩ := GeneratePath_for_spec k (towns ++ [t]) d2 p d1 h
      refine ⟨by rw [hlen]; simp; omega, fun h0 => hpw ?_⟩
      rw [List.pairwise_append]
      refine ⟨h0, List.pairwise_singleton _ _, ?_⟩
      intro a ha b hb
      rw [List.mem_singleton] at hb
      subst hb
      exact hnew a ha

/-- The number of towns `GeneratePath(int n)` returns is the number of iterations of its
loop, `n - 1` (none for `n ≤ 1`). -/
theorem GeneratePath_int_length (n : Int) (d : Draws) (p : Path) (d1 : Draws)
    (h : GeneratePath_int n d = .ok (p, d1)) : p.towns.length = (n - 1).toNat := by
  have := (GeneratePath_for_spec _ _ _ _ _ h).1
  simpa using this

/-- C2. `GeneratePath(1)` returns the empty path whatever the draws, consuming none, and
`GeneratePath(3)` returns two towns on the draws `1, 2, 3, 4`: the loop bound `i < n - 1`
yields `n - 1` towns where the comment of line 63 announces a path of `n` towns. -/
theorem GeneratePath_int_one_short :
    (∀ d : Draws, GeneratePath_int 1 d = .ok (⟨[]⟩, d)) ∧
    GeneratePath_int 3 [1, 2, 3, 4] = .ok (⟨[⟨1, 2⟩, ⟨3, 4⟩]⟩, []) :=
  ⟨fun _ => rfl, rfl⟩

/-- C3. For every `n` and every sequence of draws on which `GeneratePath(n)` returns, no
two positions `i < j` of the result hold towns with equal `x` and equal `y`. -/
theorem GeneratePath_int_distinct (n : Int) (d : Draws) (p : Path) (d1 : Draws)
    (h : GeneratePath_int n d = .ok (p, d1)) (i j : Nat) (hij : i < j)
    (hj : j < p.towns.length) :
    ¬ ((p.towns.get ⟨i, by omega⟩).x = (p.towns.get ⟨j, hj⟩).x ∧
       (p.towns.get ⟨i, by omega⟩).y = (p.towns.get ⟨j, hj⟩).y) := by
  have hpw := (GeneratePath_for_spec _ _ _ _ _ h).2 List.Pairwise.nil
  rw [List.pairwise_iff_getElem] at hpw
  exact hpw i j (by omega) hj hij

/-- On the draws `1, 2, 1, 2, 3, 4` the second sample repeats the first town and is drawn
again; `GeneratePath(3)` returns (1,2) (3,4). -/
theorem GeneratePath_int_distinct_witness :
    ¬ ((⟨1, 2⟩ : Town).x = (⟨3, 4⟩ : Town).x ∧ (⟨1, 2⟩ : Town).y = (⟨3, 4⟩ : Town).y) :=
  GeneratePath_int_distinct 3 [1, 2, 1, 2, 3, 4] ⟨[⟨1, 2⟩, ⟨3, 4⟩]⟩ [] rfl 0 1
    (by decide) (by decide)

/-- C4. For every path `p` with at least 2 towns, either operator choice and every
sequence of draws on which the call returns, index 0 of `GeneratePath(p, ct)` holds the
town at index 0 of `p`. -/
theorem GeneratePath_start_fixed (p : Path) (ct : Int) (d : Draws) (q : Path) (d' : Draws)
    (hp : 2 ≤ p.towns.length) (_hct : ct = 0 ∨ ct = 1)
    (h : GeneratePath p ct d = .ok (q, d')) :
    ∃ t : Town, p.towns[0]? = some t ∧ q.towns[0]? = some t := by
  obtain ⟨s, e, d1, -, hs, hse, he, hc⟩ := GeneratePath_cases p ct d q d' h
  obtain ⟨s, rfl⟩ : ∃ s0, s = s0 + 1 := ⟨s - 1, by omega⟩
  cases hts : p.towns with
  | nil => rw [hts] at hp; simp at hp
  | cons t ts =>
    refine ⟨t, by simp, ?_⟩
    rw [hts] at hc
    rcases hc with ⟨-, -, hq⟩ | ⟨-, r, -, hq⟩ | ⟨-, -, -, hq⟩
    · rw [hq]; simp
    · rw [hq]; simp
    · rw [hq, hts]; simp

/-- Relocate on the draws `0, 2, 7` moves the segment `[1, 3)` of (0,0) (2,0) (1,0) (3,0)
behind (3,0); (0,0) stays in front. -/
theorem GeneratePath_start_fixed_witness :
    ∃ t : Town, (⟨[⟨0, 0⟩, ⟨2, 0⟩, ⟨1, 0⟩, ⟨3, 0⟩]⟩ : Path).towns[0]? = some t ∧
      (⟨[⟨0, 0⟩, ⟨3, 0⟩, ⟨2, 0⟩, ⟨1, 0⟩]⟩ : Path).towns[0]? = some t :=
  GeneratePath_start_fixed ⟨[⟨0, 0⟩, ⟨2, 0⟩, ⟨1, 0⟩, ⟨3, 0⟩]⟩ 1 [0, 2, 7]
    ⟨[⟨0, 0⟩, ⟨3, 0⟩, ⟨2, 0⟩, ⟨1, 0⟩]⟩ [] (by decide) (by decide) rfl


/-! ## Acceptance of an improving neighbour -/

/-- C5. In one execution of the loop body, whenever
`h_delta = cost(neighbour circuit) - cost(current circuit)` is `< 0`, control returns to
the `while` test with `p_curr` replaced by the neighbour and `pathFound` set, and the
draws left after neighbour generation are handed on untouched: the acceptance test gives
this outcome on every list of remaining draws, the empty one included. -/
theorem whileBody_accepts_improvement :
    (∀ (α : Type) [Zero α] [IntCast α] [Add α] [Sub α] [Mul α] [Div α] [Neg α] [LT α]
        [∀ a b : α, Decidable (a < b)] (sqrt exp : α → α) (RAND_MAX : Int) (s : LoopState α)
        (r : Nat) (d : Draws) (p_new : Path) (d1 : Draws) (p_curr_circuit p_new_circuit : Path)
        (h_current h_new : α),
        s.draws = r :: d →
        GeneratePath s.p_curr (i_rand 0 2 r) d = .ok (p_new, d1) →
        circuit s.p_curr = .ok p_curr_circuit → circuit p_new = .ok p_new_circuit →
        EuclideanDistance sqrt p_curr_circuit = .ok h_current →
        EuclideanDistance sqrt p_new_circuit = .ok h_new →
        h_new - h_current < 0 →
          whileBody sqrt exp RAND_MAX s =
            .running { s with p_curr := p_new, pathFound := true, draws := d1 }) ∧
    (∀ (α : Type) [Zero α] [IntCast α] [Div α] [Neg α] [LT α]
        [∀ a b : α, Decidable (a < b)] (exp : α → α) (RAND_MAX : Int) (s : LoopState α)
        (p_new : Path) (h_delta : α) (d : Draws),
        h_delta < 0 →
          acceptance exp RAND_MAX s p_new h_delta d =
            .running { s with p_curr := p_new, pathFound := true, draws := d }) := by
  refine ⟨?_, ?_⟩
  · intro α _ _ _ _ _ _ _ _ _ sqrt exp RAND_MAX s r d p_new d1 cc nc h_current h_new
      hd hG hc hn h1 h2 hlt
    unfold whileBody
    rw [hd]
    simp only [hG, hc, hn, h1, h2]
    unfold acceptance
    rw [if_pos hlt]
  · intro α _ _ _ _ _ _ exp RAND_MAX s p_new h_delta d hlt
    unfold acceptance
    rw [if_pos hlt]

/-- The circuit of (0,0) (2,0) (1,0) (3,0) costs 8, that of its Reverse neighbour on the
draws `0, 2` costs 6 (integer arithmetic): the neighbour is taken and the draw `5` that
follows is not consumed. -/
theorem whileBody_accepts_improvement_witness :
    whileBody isqrt (fun _ => 1) 32767
        (⟨1000, ⟨[⟨0, 0⟩, ⟨2, 0⟩, ⟨1, 0⟩, ⟨3, 0⟩]⟩, 400, false, [0, 0, 2, 5]⟩ : LoopState Int) =
      .running ⟨1000, ⟨[⟨0, 0⟩, ⟨1, 0⟩, ⟨2, 0⟩, ⟨3, 0⟩]⟩, 400, true, [5]⟩ ∧
    acceptance (fun _ => 1) 32767
        (⟨1000, ⟨[⟨0, 0⟩, ⟨2, 0⟩, ⟨1, 0⟩, ⟨3, 0⟩]⟩, 400, false, [0, 0, 2, 5]⟩ : LoopState Int)
        ⟨[⟨0, 0⟩, ⟨1, 0⟩, ⟨2, 0⟩, ⟨3, 0⟩]⟩ (-2) [] =
      .running ⟨1000, ⟨[⟨0, 0⟩, ⟨1, 0⟩, ⟨2, 0⟩, ⟨3, 0⟩]⟩, 400, true, []⟩ :=
  ⟨whileBody_accepts_improvement.1 Int isqrt (fun _ => 1) 32767
      ⟨1000, ⟨[⟨0, 0⟩, ⟨2, 0⟩, ⟨1, 0⟩, ⟨3, 0⟩]⟩, 400, false, [0, 0, 2, 5]⟩ 0 [0, 2, 5]
      ⟨[⟨0, 0⟩, ⟨1, 0⟩, ⟨2, 0⟩, ⟨3, 0⟩]⟩ [5]
      ⟨[⟨0, 0⟩, ⟨2, 0⟩, ⟨1, 0⟩, ⟨3, 0⟩, ⟨0, 0⟩]⟩ ⟨[⟨0, 0⟩, ⟨1, 0⟩, ⟨2, 0⟩, ⟨3, 0⟩, ⟨0, 0⟩]⟩
      8 6 rfl rfl rfl rfl rfl rfl (by decide),
   whileBody_accepts_improvement.2 Int (fun _ => 1) 32767
      ⟨1000, ⟨[⟨0, 0⟩, ⟨2, 0⟩, ⟨1, 0⟩, ⟨3, 0⟩]⟩, 400, false, [0, 0, 2, 5]⟩
      ⟨[⟨0, 0⟩, ⟨1, 0⟩, ⟨2, 0⟩, ⟨3, 0⟩]⟩ (-2) [] (by decide)⟩

/-! ## The random utilities -/

/-- C6, as stated, fails: with `RAND_MAX = 2147483647` the raw draw `r = RAND_MAX` gives
`d_rand() = 1`, which is not `< 1`. -/
theorem d_rand_at_RAND_MAX :
    ¬ (0 ≤ (d_rand 2147483647 2147483647 : ℚ) ∧ (d_rand 2147483647 2147483647 : ℚ) < 1) := by
  simp [d_rand]

/-- C6, amended. For every raw draw `r` with `0 ≤ r ≤ RAND_MAX`, the quotient
`r / RAND_MAX` that `d_rand` computes is a value `v` with `0 ≤ v ≤ 1`; `v < 1` exactly
when `r < RAND_MAX`, and `v = 1` at `r = RAND_MAX`. -/
theorem d_rand_range (α : Type) [LinearOrderedField α] (RAND_MAX r : Int)
    (hM : 0 < RAND_MAX) (h0 : 0 ≤ r) (h1 : r ≤ RAND_MAX) :
    0 ≤ (d_rand RAND_MAX r : α) ∧ (d_rand RAND_MAX r : α) ≤ 1 ∧
      ((d_rand RAND_MAX r : α) < 1 ↔ r < RAND_MAX) ∧
      (d_rand RAND_MAX RAND_MAX : α) = 1 := by
  unfold d_rand
  have hMa : (0 : α) < (RAND_MAX : α) := by exact_mod_cast hM
  have h0a : (0 : α) ≤ (r : α) := by exact_mod_cast h0
  have h1a : (r : α) ≤ (RAND_MAX : α) := by exact_mod_cast h1
  refine ⟨div_nonneg h0a hMa.le, (div_le_one hMa).mpr h1a, ?_, div_self (ne_of_gt hMa)⟩
  rw [div_lt_one hMa]
  exact_mod_cast Iff.rfl

/-- With `RAND_MAX = 32767` the raw draws `16384` and `32767`. -/
theorem d_rand_range_witness :
    (0 ≤ (d_rand 32767 16384 : ℚ) ∧ (d_rand 32767 16384 : ℚ) ≤ 1 ∧
      ((d_rand 32767 16384 : ℚ) < 1 ↔ (16384 : Int) < 32767) ∧
      (d_rand 32767 32767 : ℚ) = 1) :=
  d_rand_range ℚ 32767 16384 (by decide) (by decide) (by decide)

theorem wrap_int_of_fits (z : Int) (h1 : INT_MIN ≤ z) (h2 : z ≤ INT_MAX) : wrap_int z = z := by
  unfold wrap_int
  unfold INT_MIN at h1
  unfold INT_MAX at h2
  omega

/-- Where the sum fits in `int`, the `int` value of `i_rand` is the unbounded one. -/
theorem i_rand_int_eq_i_rand (min max r : Int) (h1 : INT_MIN ≤ i_rand min max r)
    (h2 : i_rand min max r ≤ INT_MAX) : i_rand_int min max r = i_rand min max r :=
  wrap_int_of_fits _ h1 h2

/-- The sum fits for every draw when `min + max - 1` does. -/
theorem i_rand_fits (min max r : Int) (hmin : INT_MIN ≤ min) (hmax : 1 ≤ max) (hr : 0 ≤ r)
    (hsum : min + max - 1 ≤ INT_MAX) :
    INT_MIN ≤ i_rand min max r ∧ i_rand min max r ≤ INT_MAX := by
  have hb := i_rand_bounds min max r hr hmax
  omega

/-- C7, as stated, fails: with `min = 2147483647 = INT_MAX`, `max = 5` and the raw draw
`r = 7`, the sum `7 % 5 + min` does not fit in `int` and `i_rand` returns `-2147483647`,
which is below `min`. -/
theorem i_rand_int_overflow :
    i_rand_int 2147483647 5 7 = -2147483647 ∧ ¬ (2147483647 ≤ i_rand_int 2147483647 5 7) := by
  decide

/-- C7, amended. For every `int` value `min`, every `max ≥ 1` and every non-negative raw
draw `r` for which the sum `r % max + min` does not exceed `INT_MAX`,
`i_rand(min, max) = r % max + min` satisfies `min ≤ i_rand(min, max) < min + max`. -/
theorem i_rand_int_range (min max r : Int) (hmin : INT_MIN ≤ min) (hmax : 1 ≤ max)
    (hr : 0 ≤ r) (hsum : r % max + min ≤ INT_MAX) :
    i_rand_int min max r = r % max + min ∧
      min ≤ i_rand_int min max r ∧ i_rand_int min max r < min + max := by
  have he : i_rand min max r = r % max + min := by
    unfold i_rand
    rw [Int.tmod_eq_emod hr (by omega)]
  have hb := i_rand_bounds min max r hr hmax
  have hfit := i_rand_int_eq_i_rand min max r (by omega) (by omega)
  rw [hfit]
  exact ⟨he, hb⟩

/-- The draw `9` in `i_rand(2147483643, 5)`: the sum is `INT_MAX` and still fits. -/
theorem i_rand_int_range_witness :
    i_rand_int 2147483643 5 9 = 9 % 5 + 2147483643 ∧
      2147483643 ≤ i_rand_int 2147483643 5 9 ∧ i_rand_int 2147483643 5 9 < 2147483643 + 5 :=
  i_rand_int_range 2147483643 5 9 (by decide) (by decide) (by decide) (by decide)


/-! ## Reversing a segment twice -/

/-- The three parts of a vector cut at `s` and `e`. -/
theorem segment_parts (A B C : List Town) (s e : Nat) (hA : A.length = s)
    (hB : B.length = e - s) (hse : s ≤ e) :
    (A ++ B ++ C).take s = A ∧ ((A ++ B ++ C).drop s).take (e - s) = B ∧
      (A ++ B ++ C).drop e = C := by
  have hd : (A ++ B ++ C).drop s = B ++ C := by
    rw [List.append_assoc, ← hA]
    exact List.drop_left _ _
  refine ⟨?_, ?_, ?_⟩
  · rw [List.append_assoc, ← hA]
    exact List.take_left _ _
  · rw [hd, ← hB]
    exact List.take_left _ _
  · have he : e = (A ++ B).length := by simp; omega
    rw [he]
    exact List.drop_left _ _

/-- C8. Applying the Reverse operator twice with the same segment bounds `(s, e)`,
`1 ≤ s < e ≤ length`, restores the original sequence: the first application returns
some `Q`, and the second, applied to `Q`, returns `P`. -/
theorem Reverse_twice (P : List Town) (s e : Int) (hs : 1 ≤ s) (hse : s < e)
    (he : e ≤ P.length) :
    ∃ Q : List Town, Reverse P s e = .ok Q ∧ Reverse Q s e = .ok P := by
  obtain ⟨s, rfl⟩ := Int.eq_ofNat_of_zero_le (show 0 ≤ s by omega)
  obtain ⟨e, rfl⟩ := Int.eq_ofNat_of_zero_le (show 0 ≤ e by omega)
  have hse1 : s ≤ e := by omega
  have he1 : e ≤ P.length := by omega
  refine ⟨_, Reverse_ok P s e hse1 he1, ?_⟩
  have hA : (P.take s).length = s := by simp; omega
  have hB : ((P.drop s).take (e - s)).reverse.length = e - s := by simp; omega
  have hlen : e ≤ (P.take s ++ ((P.drop s).take (e - s)).reverse ++ P.drop e).length := by
    simp; omega
  rw [Reverse_ok _ s e hse1 hlen]
  obtain ⟨p1, p2, p3⟩ := segment_parts (P.take s) ((P.drop s).take (e - s)).reverse
    (P.drop e) s e hA hB hse1
  rw [p1, p2, p3, List.reverse_reverse, List.append_assoc]
  exact congrArg Except.ok (slice_decomp P s e hse1)

/-- The segment `[1, 3)` of (0,0) (2,0) (1,0) (3,0), reversed and reversed again. -/
theorem Reverse_twice_witness :
    ∃ Q : List Town, Reverse [⟨0, 0⟩, ⟨2, 0⟩, ⟨1, 0⟩, ⟨3, 0⟩] 1 3 = .ok Q ∧
      Reverse Q 1 3 = .ok [⟨0, 0⟩, ⟨2, 0⟩, ⟨1, 0⟩, ⟨3, 0⟩] :=
  Reverse_twice [⟨0, 0⟩, ⟨2, 0⟩, ⟨1, 0⟩, ⟨3, 0⟩] 1 3 (by decide) (by decide) (by decide)



/-! ## The cost of a degenerate path -/

/-- C11, as stated, fails on 0 towns: `EuclideanDistance` of the empty path is undefined
(its loop bound `end() - 1` lies before `begin()`), and the closed circuit of the empty
path cannot be built (`towns.at(0)` throws); neither returns cost 0. -/
theorem EuclideanDistance_empty :
    EuclideanDistance isqrt (⟨[]⟩ : Path) = Except.error Fault.undefined ∧
    EuclideanDistance isqrt (⟨[]⟩ : Path) ≠ Except.ok 0 ∧
    circuit (⟨[]⟩ : Path) = Except.error Fault.outOfRange :=
  ⟨rfl, by simp [EuclideanDistance], rfl⟩

/-- C11, amended. For every path with exactly 1 town `EuclideanDistance` returns cost 0
and does not fail, both for the open path and for the closed circuit (the town followed
by itself).  The closed case uses four facts of the arithmetic on zero, all exact in
IEEE doubles: the integer 0 converts to 0, `0 * 0 = 0`, `0 + 0 = 0`, `sqrt 0 = 0`.
A path with 0 towns is outside the function: the open cost is undefined and the closed
circuit cannot be built. -/
theorem EuclideanDistance_one_town (α : Type) [Zero α] [IntCast α] [Add α] [Mul α]
    (sqrt : α → α) (t : Town) (hcast : ((0 : Int) : α) = 0) (hmul : (0 : α) * 0 = 0)
    (hadd : (0 : α) + 0 = 0) (hsqrt : sqrt 0 = 0) :
    (EuclideanDistance sqrt ⟨[t]⟩ = .ok 0 ∧
      circuit ⟨[t]⟩ = .ok ⟨[t, t]⟩ ∧ EuclideanDistance sqrt ⟨[t, t]⟩ = .ok 0) ∧
    (EuclideanDistance sqrt ⟨[]⟩ = .error .undefined ∧
      circuit ⟨[]⟩ = .error .outOfRange) := by
  refine ⟨⟨rfl, rfl, ?_⟩, rfl, rfl⟩
  simp only [EuclideanDistance, EuclideanDistance_loop, EuclideanDistance_ed, sub_self,
    abs_zero, hcast, hmul, hadd, hsqrt]

/-- The town (3, 4) alone, in integer arithmetic. -/
theorem EuclideanDistance_one_town_witness :
    (EuclideanDistance isqrt ⟨[⟨3, 4⟩]⟩ = .ok 0 ∧
      circuit ⟨[⟨3, 4⟩]⟩ = .ok ⟨[⟨3, 4⟩, ⟨3, 4⟩]⟩ ∧
      EuclideanDistance isqrt ⟨[⟨3, 4⟩, ⟨3, 4⟩]⟩ = .ok 0) ∧
    (EuclideanDistance isqrt ⟨[]⟩ = .error .undefined ∧
      circuit ⟨[]⟩ = .error .outOfRange) :=
  EuclideanDistance_one_town Int isqrt ⟨3, 4⟩ rfl rfl rfl rfl

/-! ## The initial path and the size of the grid -/

/-- The grid of coordinates has 625 cells. -/
theorem grid_card : Fintype.card (Fin 25 × Fin 25) = 625 := by
  simp

/-- Towns pairwise apart with coordinates in `[0, X_MAX) × [0, Y_MAX)` number at most
625. -/
theorem towns_in_grid_length_le (l : List Town) (hpw : l.Pairwise Town.apart)
    (hr : ∀ t ∈ l, 0 ≤ t.x ∧ t.x < X_MAX ∧ 0 ≤ t.y ∧ t.y < Y_MAX) : l.length ≤ 625 := by
  let f : Town → Fin 25 × Fin 25 := fun t =>
    (⟨t.x.toNat % 25, Nat.mod_lt _ (by decide)⟩, ⟨t.y.toNat % 25, Nat.mod_lt _ (by decide)⟩)
  have hnd : (l.map f).Nodup := by
    rw [List.Nodup, List.pairwise_map]
    refine List.Pairwise.imp_of_mem ?_ hpw
    intro a b ha hb hab hf
    apply hab
    have h1 := hr a ha
    have h2 := hr b hb
    simp only [X_MAX, Y_MAX] at h1 h2
    simp only [f, Prod.mk.injEq, Fin.mk.injEq] at hf
    constructor <;> omega
  have := hnd.length_le_card
  rw [List.length_map, grid_card] at this
  exact this

theorem GeneratePath_for_range :
    ∀ (k : Nat) (towns : List Town) (d : Draws) (p : Path) (d1 : Draws),
      GeneratePath_for k towns d = .ok (p, d1) →
        (∀ t ∈ towns, 0 ≤ t.x ∧ t.x < X_MAX ∧ 0 ≤ t.y ∧ t.y < Y_MAX) →
        ∀ t ∈ p.towns, 0 ≤ t.x ∧ t.x < X_MAX ∧ 0 ≤ t.y ∧ t.y < Y_MAX
  | 0, towns, d, p, d1, h, h0 => by
    simp only [GeneratePath_for, Except.ok.injEq, Prod.mk.injEq] at h
    obtain ⟨hp, -⟩ := h
    subst hp
    exact h0
  | k + 1, towns, d, p, d1, h, h0 => by
    unfold GeneratePath_for at h
    split at h
    · simp at h
    · rename_i t d2 hs
      obtain ⟨-, hrange, -⟩ := GeneratePath_sample_spec towns d t d2 hs
      refine GeneratePath_for_range k (towns ++ [t]) d2 p d1 h ?_
      intro u hu
      rw [List.mem_append, List.mem_singleton] at hu
      rcases hu with hu | hu
      · exact h0 u hu
      · subst hu; exact hrange

/-- Whatever `GeneratePath(int)` returns holds at most 625 towns. -/
theorem GeneratePath_int_length_le (n : Int) (d : Draws) (p : Path) (d1 : Draws)
    (h : GeneratePath_int n d = .ok (p, d1)) : p.towns.length ≤ 625 :=
  towns_in_grid_length_le p.towns
    ((GeneratePath_for_spec _ _ _ _ _ h).2 List.Pairwise.nil)
    (GeneratePath_for_range _ _ _ _ _ h (by simp))

theorem GeneratePath_sample_error (towns : List Town) :
    ∀ (d : Draws) (f : Fault), GeneratePath_sample towns d = .error f → f = .starved
  | [], f, h => by simpa [GeneratePath_sample] using h.symm
  | [_], f, h => by simpa [GeneratePath_sample] using h.symm
  | r1 :: r2 :: rest, f, h => by
    unfold GeneratePath_sample at h
    dsimp only at h
    split at h
    · exact GeneratePath_sample_error towns rest f h
    · simp at h

theorem GeneratePath_for_error :
    ∀ (k : Nat) (towns : List Town) (d : Draws) (f : Fault),
      GeneratePath_for k towns d = .error f → f = .starved
  | 0, towns, d, f, h => by simp [GeneratePath_for] at h
  | k + 1, towns, d, f, h => by
    unfold GeneratePath_for at h
    split at h
    · rename_i f1 hs
      simp only [Except.error.injEq] at h
      subst h
      exact GeneratePath_sample_error towns d _ hs
    · exact GeneratePath_for_error k _ _ f h


/-- C12, as stated, fails: `GeneratePath(677)` returns on no sequence of draws, so it
returns no configuration error either. -/
theorem GeneratePath_int_677_returns_nothing :
    ¬ ∃ (d : Draws) (p : Path) (d1 : Draws), GeneratePath_int 677 d = .ok (p, d1) := by
  rintro ⟨d, p, d1, h⟩
  have h1 := GeneratePath_int_length 677 d p d1 h
  have h2 := GeneratePath_int_length_le 677 d p d1 h
  rw [h1] at h2
  simp at h2

/-- C12, amended. For every `n` greater than 676 (indeed greater than 626) and every
sequence of draws, `GeneratePath(n)` does not return: the source has no configuration
error, and the call is still resampling coordinates when the draws end, however many
are supplied. -/
theorem GeneratePath_int_too_many (n : Int) (d : Draws) (hn : 626 < n) :
    GeneratePath_int n d = .error .starved := by
  cases h : GeneratePath_int n d with
  | error f =>
    rw [GeneratePath_for_error _ _ _ f h]
  | ok v =>
    exfalso
    obtain ⟨p, d1⟩ := v
    have h1 := GeneratePath_int_length n d p d1 h
    have h2 := GeneratePath_int_length_le n d p d1 h
    omega

/-- With `n = 677`, on the draws `3, 4, 3, 4`: the second sample repeats (3, 4) and the
draws end. -/
theorem GeneratePath_int_too_many_witness :
    GeneratePath_int 677 [3, 4, 3, 4] = .error .starved :=
  GeneratePath_int_too_many 677 [3, 4, 3, 4] (by decide)

/-- C20. Every town of a path returned by `GeneratePath(n)` has `0 ≤ x < X_MAX` and
`0 ≤ y < Y_MAX` (neither `x = 25` nor `y = 25` occurs), and the path holds at most
`X_MAX * Y_MAX = 625` towns, which are pairwise distinct. -/
theorem GeneratePath_int_grid (n : Int) (d : Draws) (p : Path) (d1 : Draws)
    (h : GeneratePath_int n d = .ok (p, d1)) :
    (∀ t ∈ p.towns, 0 ≤ t.x ∧ t.x < X_MAX ∧ 0 ≤ t.y ∧ t.y < Y_MAX ∧ t.x ≠ 25 ∧ t.y ≠ 25) ∧
      X_MAX * Y_MAX = 625 ∧ (p.towns.length : Int) ≤ X_MAX * Y_MAX ∧ p.towns.Nodup := by
  have hr := GeneratePath_for_range _ _ _ _ _ h (by simp)
  have hpw := (GeneratePath_for_spec _ _ _ _ _ h).2 List.Pairwise.nil
  refine ⟨?_, by decide, ?_, ?_⟩
  · intro t ht
    have := hr t ht
    simp only [X_MAX, Y_MAX] at this ⊢
    omega
  · have := towns_in_grid_length_le p.towns hpw hr
    simp only [X_MAX, Y_MAX]
    omega
  · refine List.Pairwise.imp ?_ hpw
    intro a b hab heq
    exact hab ⟨by rw [heq], by rw [heq]⟩

/-- The draws `26, 49, 1, 2` give the towns (1, 24) and (1, 2). -/
theorem GeneratePath_int_grid_witness :
    (∀ t ∈ (⟨[⟨1, 24⟩, ⟨1, 2⟩]⟩ : Path).towns,
        0 ≤ t.x ∧ t.x < X_MAX ∧ 0 ≤ t.y ∧ t.y < Y_MAX ∧ t.x ≠ 25 ∧ t.y ≠ 25) ∧
      X_MAX * Y_MAX = 625 ∧
      (((⟨[⟨1, 24⟩, ⟨1, 2⟩]⟩ : Path).towns.length : Nat) : Int) ≤ X_MAX * Y_MAX ∧
      (⟨[⟨1, 24⟩, ⟨1, 2⟩]⟩ : Path).towns.Nodup :=
  GeneratePath_int_grid 3 [26, 49, 1, 2] ⟨[⟨1, 24⟩, ⟨1, 2⟩]⟩ [] rfl

/-! ## The random segment -/

/-- C13, as stated, fails: on a path of 2 towns and the draws `0, 1`, `RandomSegment`
returns `(1, 2)`, whose second index is the path length, not below it. -/
theorem RandomSegment_reaches_size :
    RandomSegment [⟨0, 0⟩, ⟨1, 0⟩] [0, 1] = .ok ((1, 2), []) ∧
      ¬ ((2 : Int) < (([⟨0, 0⟩, ⟨1, 0⟩] : List Town).length : Int)) :=
  ⟨rfl, by decide⟩

/-- C13, amended. For every path `p` with `n ≥ 2` towns and every sequence of draws on
which the resampling loop stops, `RandomSegment` returns indices `(s, e)` with `s < e`,
`1 ≤ s`, `s < n` and `e ≤ n`: the first index is below the path length, the second may
equal it. -/
theorem RandomSegment_range (p : List Town) (d : Draws) (s e : Int) (d1 : Draws)
    (hp : 2 ≤ p.length) (h : RandomSegment p d = .ok ((s, e), d1)) :
    s < e ∧ 1 ≤ s ∧ s < p.length ∧ e ≤ p.length := by
  have _ := hp
  obtain ⟨h1, h2, h3, -⟩ := RandomSegment_spec p d s e d1 h
  exact ⟨h2, h1, by omega, h3⟩

/-- On 3 towns the draws `4, 4, 5, 3` give equal indices first, then `(1, 3)`. -/
theorem RandomSegment_range_witness :
    (1 : Int) < 3 ∧ (1 : Int) ≤ 1 ∧
      (1 : Int) < (([⟨0, 0⟩, ⟨1, 0⟩, ⟨2, 0⟩] : List Town).length : Int) ∧
      (3 : Int) ≤ (([⟨0, 0⟩, ⟨1, 0⟩, ⟨2, 0⟩] : List Town).length : Int) :=
  RandomSegment_range [⟨0, 0⟩, ⟨1, 0⟩, ⟨2, 0⟩] [4, 4, 5, 3] 1 3 [] (by decide) rfl


/-! ## The two operators -/

/-- C14. For every path `P` and segment bounds `1 ≤ s < e ≤ length(P)`, the Reverse
operator returns `take(s, P) ++ reverse(P[s..e)) ++ drop(e, P)`: a sequence of the length
of `P` that agrees with `P` at every index outside `[s, e)` and holds `P[s + e - 1 - i]`
at every index `i` in `[s, e)`. -/
theorem Reverse_spec (P : List Town) (s e : Nat) (hs : 1 ≤ s) (hse : s < e)
    (he : e ≤ P.length) :
    ∃ Q : List Town, Reverse P (s : Int) (e : Int) = .ok Q ∧
      Q = P.take s ++ ((P.drop s).take (e - s)).reverse ++ P.drop e ∧
      Q.length = P.length ∧
      (∀ i : Nat, i < s ∨ e ≤ i → Q[i]? = P[i]?) ∧
      (∀ i : Nat, s ≤ i → i < e → Q[i]? = P[s + e - 1 - i]?) := by
  have _ := hs
  refine ⟨_, Reverse_ok P s e (by omega) he, rfl, by simp; omega, ?_, ?_⟩
  · intro i hi
    rcases hi with hi | hi
    · rw [List.append_assoc, List.getElem?_append_left (by simp; omega)]
      exact List.getElem?_take_of_lt hi
    · rw [List.getElem?_append_right (by simp; omega)]
      simp only [List.length_append, List.length_take, List.length_reverse, List.length_drop,
        List.getElem?_drop]
      congr 1
      omega
  · intro i hi hi2
    rw [List.append_assoc, List.getElem?_append_right (by simp; omega)]
    rw [List.getElem?_append_left (by simp; omega)]
    rw [List.getElem?_reverse (by simp; omega)]
    simp only [List.length_take, List.length_drop, List.getElem?_take, List.getElem?_drop]
    rw [if_pos (by omega)]
    congr 1
    omega

/-- The segment `[1, 4)` of five towns: index 0 and index 4 stay, indices 1, 2, 3 hold
the old indices 3, 2, 1. -/
theorem Reverse_spec_witness :
    ∃ Q : List Town,
      Reverse [⟨0, 0⟩, ⟨1, 0⟩, ⟨2, 0⟩, ⟨3, 0⟩, ⟨4, 0⟩] ((1 : Nat) : Int) ((4 : Nat) : Int) = .ok Q ∧
      Q = ([⟨0, 0⟩, ⟨1, 0⟩, ⟨2, 0⟩, ⟨3, 0⟩, ⟨4, 0⟩] : List Town).take 1
            ++ ((([⟨0, 0⟩, ⟨1, 0⟩, ⟨2, 0⟩, ⟨3, 0⟩, ⟨4, 0⟩] : List Town).drop 1).take
                (4 - 1)).reverse
            ++ ([⟨0, 0⟩, ⟨1, 0⟩, ⟨2, 0⟩, ⟨3, 0⟩, ⟨4, 0⟩] : List Town).drop 4 ∧
      Q.length = ([⟨0, 0⟩, ⟨1, 0⟩, ⟨2, 0⟩, ⟨3, 0⟩, ⟨4, 0⟩] : List Town).length ∧
      (∀ i : Nat, i < 1 ∨ 4 ≤ i →
        Q[i]? = ([⟨0, 0⟩, ⟨1, 0⟩, ⟨2, 0⟩, ⟨3, 0⟩, ⟨4, 0⟩] : List Town)[i]?) ∧
      (∀ i : Nat, 1 ≤ i → i < 4 →
        Q[i]? = ([⟨0, 0⟩, ⟨1, 0⟩, ⟨2, 0⟩, ⟨3, 0⟩, ⟨4, 0⟩] : List Town)[1 + 4 - 1 - i]?) :=
  Reverse_spec [⟨0, 0⟩, ⟨1, 0⟩, ⟨2, 0⟩, ⟨3, 0⟩, ⟨4, 0⟩] 1 4 (by decide) (by decide) (by decide)

/-- C15, as stated, fails: on (0,0) (1,0) (2,0) with the segment `[1, 2)` and the raw draw
`1`, Relocate returns (0,0) (2,0) (1,0): the segment is inserted at index 2, the length of
the shortened sequence (0,0) (2,0), and at no index `r` with `1 ≤ r < 2`. -/
theorem Relocate_at_end :
    Relocate [⟨0, 0⟩, ⟨1, 0⟩, ⟨2, 0⟩] 1 2 [1] = .ok ([⟨0, 0⟩, ⟨2, 0⟩, ⟨1, 0⟩], []) ∧
      ¬ ∃ r : Nat, 1 ≤ r ∧ r < ([⟨0, 0⟩, ⟨2, 0⟩] : List Town).length ∧
          ([⟨0, 0⟩, ⟨2, 0⟩, ⟨1, 0⟩] : List Town) =
            ([⟨0, 0⟩, ⟨2, 0⟩] : List Town).take r ++ [⟨1, 0⟩]
              ++ ([⟨0, 0⟩, ⟨2, 0⟩] : List Town).drop r := by
  refine ⟨rfl, ?_⟩
  rintro ⟨r, h1, h2, h3⟩
  have hr : r = 1 := by
    simp only [List.length_cons, List.length_nil] at h2
    omega
  subst hr
  revert h3
  decide

/-- C15, amended. For every path `P` with at least 2 towns, segment bounds
`1 ≤ s < e ≤ length(P)` and every raw draw, the Relocate operator returns `rest` with the
segment `P[s..e)`, in its original order, inserted at the index
`r = raw % length(rest) + 1`, where `rest` is `P` with `[s, e)` removed, `rest` is not
empty and `1 ≤ r ≤ length(rest)`: the segment may be put behind the last town. -/
theorem Relocate_spec (P : List Town) (s e : Nat) (raw : Nat) (d : Draws)
    (hP : 2 ≤ P.length) (hs : 1 ≤ s) (hse : s < e) (he : e ≤ P.length) :
    ∃ (rest : List Town) (r : Nat),
      rest = P.take s ++ P.drop e ∧ 1 ≤ rest.length ∧
      r = raw % rest.length + 1 ∧ 1 ≤ r ∧ r ≤ rest.length ∧
      Relocate P (s : Int) (e : Int) (raw :: d) =
        .ok (rest.take r ++ (P.drop s).take (e - s) ++ rest.drop r, d) := by
  have _ := hP
  have hlen : 1 ≤ (P.take s ++ P.drop e).length := by simp; omega
  have hmod := Nat.mod_lt raw (show 0 < (P.take s ++ P.drop e).length by omega)
  exact ⟨_, _, rfl, hlen, rfl, by omega, by omega,
    Relocate_ok P s e raw d hs (by omega) he⟩

/-- The segment `[1, 3)` of (0,0) (2,0) (1,0) (3,0) with the raw draw `7`: `rest` is
(0,0) (3,0) and `r = 7 % 2 + 1 = 2`. -/
theorem Relocate_spec_witness :
    ∃ (rest : List Town) (r : Nat),
      rest = ([⟨0, 0⟩, ⟨2, 0⟩, ⟨1, 0⟩, ⟨3, 0⟩] : List Town).take 1
              ++ ([⟨0, 0⟩, ⟨2, 0⟩, ⟨1, 0⟩, ⟨3, 0⟩] : List Town).drop 3 ∧
      1 ≤ rest.length ∧ r = 7 % rest.length + 1 ∧ 1 ≤ r ∧ r ≤ rest.length ∧
      Relocate [⟨0, 0⟩, ⟨2, 0⟩, ⟨1, 0⟩, ⟨3, 0⟩] ((1 : Nat) : Int) ((3 : Nat) : Int) (7 :: [5]) =
        .ok (rest.take r
              ++ (([⟨0, 0⟩, ⟨2, 0⟩, ⟨1, 0⟩, ⟨3, 0⟩] : List Town).drop 1).take (3 - 1)
              ++ rest.drop r, [5]) :=
  Relocate_spec [⟨0, 0⟩, ⟨2, 0⟩, ⟨1, 0⟩, ⟨3, 0⟩] 1 3 7 [5] (by decide) (by decide)
    (by decide) (by decide)


theorem RandomSegment_error (p : List Town) (hp : 1 ≤ p.length) :
    ∀ (d : Draws) (f : Fault), RandomSegment p d = .error f → f = .starved
  | [], f, h => by simpa [RandomSegment] using h.symm
  | [_], f, h => by
    unfold RandomSegment at h
    rw [if_neg (by omega)] at h
    simpa using h.symm
  | r1 :: r2 :: rest, f, h => by
    unfold RandomSegment at h
    rw [if_neg (by omega)] at h
    dsimp only at h
    split at h
    · simp at h
    · exact RandomSegment_error p hp rest f h

theorem Relocate_starved (t : List Town) (s e : Nat) (hse : s ≤ e) (he : e ≤ t.length) :
    Relocate t s e [] = .error .starved := by
  unfold Relocate
  rw [vector_erase_ok t s e hse he]
  rfl

/-- What the acceptance test can lead to: the neighbour is accepted, or the run ends at
`compareSteps == 0`, or one step of the budget is used. -/
theorem acceptance_outcome {α : Type} [Zero α] [IntCast α] [Div α] [Neg α] [LT α]
    [∀ a b : α, Decidable (a < b)] (exp : α → α) (RAND_MAX : Int) (s : LoopState α) (p_new : Path)
    (h_delta : α) (d : Draws) :
    (∀ s1, acceptance exp RAND_MAX s p_new h_delta d = .running s1 →
      (s1.pathFound = true ∧ s1.T = s.T ∧ s1.compareSteps = s.compareSteps ∧
        s1.p_curr = p_new) ∨
      (s1.pathFound = s.pathFound ∧ s1.T = s.T ∧ s1.p_curr = s.p_curr ∧
        s.compareSteps ≠ 0 ∧ s1.compareSteps = s.compareSteps - 1)) ∧
    (∀ q, acceptance exp RAND_MAX s p_new h_delta d = .exited q →
      q = s.p_curr ∧ s.compareSteps = 0) ∧
    (∀ q, acceptance exp RAND_MAX s p_new h_delta d ≠ .finished q) := by
  unfold acceptance
  by_cases h1 : h_delta < 0
  · rw [if_pos h1]
    refine ⟨?_, by simp, by simp⟩
    intro s1 hs1
    simp only [Control.running.injEq] at hs1
    subst hs1
    exact Or.inl ⟨rfl, rfl, rfl, rfl⟩
  · rw [if_neg h1]
    cases d with
    | nil => simp
    | cons r d1 =>
      simp only []
      by_cases h2 : exp ((-h_delta) / s.T) > (d_rand RAND_MAX r : α)
      · rw [if_pos h2]
        refine ⟨?_, by simp, by simp⟩
        intro s1 hs1
        simp only [Control.running.injEq] at hs1
        subst hs1
        exact Or.inl ⟨rfl, rfl, rfl, rfl⟩
      · rw [if_neg h2]
        by_cases h3 : s.compareSteps = 0
        · rw [if_pos h3]
          refine ⟨by simp, ?_, by simp⟩
          intro q hq
          simp only [Control.exited.injEq] at hq
          exact ⟨hq.symm, h3⟩
        · rw [if_neg h3]
          refine ⟨?_, by simp, by simp⟩
          intro s1 hs1
          simp only [Control.running.injEq] at hs1
          subst hs1
          exact Or.inr ⟨rfl, rfl, rfl, h3, rfl⟩

section Level

variable {α : Type} [Zero α] [IntCast α] [Add α] [Sub α] [Mul α] [Div α] [Neg α] [LT α]
  [∀ a b : α, Decidable (a < b)]

/-- What one execution of the loop body can lead to: the neighbour is accepted, or the
run ends at `compareSteps == 0`, or one step of the budget is used. -/
theorem whileBody_outcome (sqrt exp : α → α) (RAND_MAX : Int) (s : LoopState α) :
    (∀ s1, whileBody sqrt exp RAND_MAX s = .running s1 →
      (s1.pathFound = true ∧ s1.T = s.T ∧ s1.compareSteps = s.compareSteps ∧
        ∃ (ct : Int) (d d' : Draws), GeneratePath s.p_curr ct d = .ok (s1.p_curr, d')) ∨
      (s1.pathFound = s.pathFound ∧ s1.T = s.T ∧ s1.p_curr = s.p_curr ∧
        s.compareSteps ≠ 0 ∧ s1.compareSteps = s.compareSteps - 1)) ∧
    (∀ q, whileBody sqrt exp RAND_MAX s = .exited q → q = s.p_curr ∧ s.compareSteps = 0) ∧
    (∀ q, whileBody sqrt exp RAND_MAX s ≠ .finished q) := by
  unfold whileBody
  split
  · simp
  · rename_i r d hd
    split
    · simp
    · rename_i p_new d1 hG
      split
      · simp
      · simp
      · split
        · simp
        · simp
        · rename_i h_current h_new _ _
          obtain ⟨a1, a2, a3⟩ :=
            acceptance_outcome exp RAND_MAX s p_new (h_new - h_current) d1
          refine ⟨?_, a2, a3⟩
          intro s1 hs1
          rcases a1 s1 hs1 with ⟨b1, b2, b3, b4⟩ | hrej
          · subst b4
            exact Or.inl ⟨b1, b2, b3, _, _, _, hG⟩
          · exact Or.inr hrej

/-- Once `pathFound` is set the loop is left at once. -/
theorem whileLoop_found (sqrt exp : α → α) (RAND_MAX : Int) (k : Nat) (s : LoopState α)
    (n : Nat) (h : s.pathFound = true) :
    whileLoop sqrt exp RAND_MAX k s n = (.running s, n) := by
  cases k with
  | zero => rfl
  | succ k => simp [whileLoop, h]

/-- The `while` loop from a state with budget `compareSteps ≥ 0` and no path found. -/
theorem whileLoop_outcome (sqrt exp : α → α) (RAND_MAX : Int) :
    ∀ (k : Nat) (s : LoopState α) (n : Nat), 0 ≤ s.compareSteps → s.pathFound = false →
      (whileLoop sqrt exp RAND_MAX k s n).2 ≤ n + (s.compareSteps + 1).toNat ∧
      (∀ s1, (whileLoop sqrt exp RAND_MAX k s n).1 = .running s1 →
        (s1.pathFound = true ∧ s1.T = s.T ∧
          ∃ (ct : Int) (d d' : Draws), GeneratePath s.p_curr ct d = .ok (s1.p_curr, d')) ∨
        (s1.pathFound = false ∧ 0 ≤ s1.compareSteps ∧ s1.p_curr = s.p_curr ∧ s1.T = s.T)) ∧
      (∀ q, (whileLoop sqrt exp RAND_MAX k s n).1 = .exited q →
        q = s.p_curr ∧
          (whileLoop sqrt exp RAND_MAX k s n).2 = n + (s.compareSteps + 1).toNat) ∧
      (∀ q, (whileLoop sqrt exp RAND_MAX k s n).1 ≠ .finished q)
  | 0, s, n, hs, hf => by
    simp only [whileLoop]
    refine ⟨by omega, ?_, by simp, by simp⟩
    intro s1 h1
    simp only [Control.running.injEq] at h1
    subst h1
    exact Or.inr ⟨hf, hs, rfl, rfl⟩
  | k + 1, s, n, hs, hf => by
    obtain ⟨hrun, hexit, hfin⟩ := whileBody_outcome sqrt exp RAND_MAX s
    simp only [whileLoop]
    rw [if_pos ⟨hs, hf⟩]
    cases hb : whileBody sqrt exp RAND_MAX s with
    | running s1 =>
      simp only []
      rcases hrun s1 hb with ⟨hpf, hT, hc, hG⟩ | ⟨hpf, hT, hp, hne, hc⟩
      · rw [whileLoop_found sqrt exp RAND_MAX k s1 (n + 1) hpf]
        refine ⟨by simp only []; omega, ?_, by simp, by simp⟩
        intro s2 h2
        simp only [Control.running.injEq] at h2
        subst h2
        exact Or.inl ⟨hpf, hT, hG⟩
      · have hs1 : 0 ≤ s1.compareSteps := by omega
        have hf1 : s1.pathFound = false := by rw [hpf, hf]
        obtain ⟨i1, i2, i3, i4⟩ := whileLoop_outcome sqrt exp RAND_MAX k s1 (n + 1) hs1 hf1
        rw [hp, hT] at i2
        rw [hp] at i3
        refine ⟨by omega, i2, ?_, i4⟩
        intro q hq
        obtain ⟨j1, j2⟩ := i3 q hq
        exact ⟨j1, by omega⟩
    | exited q =>
      simp only []
      obtain ⟨hq, h0⟩ := hexit q hb
      refine ⟨by omega, by simp, ?_, by simp⟩
      intro q1 hq1
      simp only [Control.exited.injEq] at hq1
      subst hq1
      exact ⟨hq, by rw [h0]; rfl⟩
    | finished q => exact absurd hb (hfin q)
    | failed f =>
      simp only []
      exact ⟨by omega, by simp, by simp, by simp⟩

/-- The loop is the machine of `main`: where it stands after proposing is where `run`
stands after as many steps as neighbours were proposed. -/
theorem whileLoop_is_run (sqrt exp : α → α) (RAND_MAX : Int) (T_min T_step : α) :
    ∀ (k : Nat) (s : LoopState α) (n : Nat),
      n ≤ (whileLoop sqrt exp RAND_MAX k s n).2 ∧
      (whileLoop sqrt exp RAND_MAX k s n).1 =
        run sqrt exp RAND_MAX T_min T_step ((whileLoop sqrt exp RAND_MAX k s n).2 - n)
          (.running s)
  | 0, s, n => by simp [whileLoop, run]
  | k + 1, s, n => by
    simp only [whileLoop]
    by_cases hc : s.compareSteps ≥ 0 ∧ s.pathFound = false
    · rw [if_pos hc]
      have hstep : step sqrt exp RAND_MAX T_min T_step (.running s) =
          whileBody sqrt exp RAND_MAX s := by
        simp only [step]
        rw [if_pos hc]
      cases hb : whileBody sqrt exp RAND_MAX s with
      | running s1 =>
        simp only []
        obtain ⟨i1, i2⟩ := whileLoop_is_run sqrt exp RAND_MAX T_min T_step k s1 (n + 1)
        refine ⟨by omega, ?_⟩
        rw [i2]
        obtain ⟨j, hj⟩ : ∃ j, (whileLoop sqrt exp RAND_MAX k s1 (n + 1)).2 = n + 1 + j :=
          ⟨_, (Nat.add_sub_cancel' i1).symm⟩
        rw [hj]
        have e1 : n + 1 + j - (n + 1) = j := by omega
        have e2 : n + 1 + j - n = j + 1 := by omega
        rw [e1, e2]
        simp only [run, hstep, hb]
      | exited q =>
        simp only []
        refine ⟨by omega, ?_⟩
        have e : n + 1 - n = 1 := by omega
        rw [e]
        simp only [run, hstep, hb]
      | finished q =>
        simp only []
        refine ⟨by omega, ?_⟩
        have e : n + 1 - n = 1 := by omega
        rw [e]
        simp only [run, hstep, hb]
      | failed f =>
        simp only []
        refine ⟨by omega, ?_⟩
        have e : n + 1 - n = 1 := by omega
        rw [e]
        simp only [run, hstep, hb]
    · rw [if_neg hc]
      simp [run]

end Level

theorem forEnter_running {α : Type} [LT α] [∀ a b : α, Decidable (a < b)] (T_min T : α)
    (p : Path) (d : Draws) (s : LoopState α) (h : forEnter T_min T p d = .running s) :
    s = ⟨T, p, 100 * p.towns.length, false, d⟩ := by
  unfold forEnter at h
  split at h
  · simp only [Control.running.injEq] at h
    exact h.symm
  · simp at h


/-- C16, as stated, fails: at a level entered with the 2 towns (0,0) (2,0), where every
neighbour equals the path, `exp(0) = 1` and every acceptance draw is `RAND_MAX` (so
`d_rand() = 1` and `1 > 1` is false), the inner loop proposes 201 neighbours, one more
than `100 * 2`, before the run ends at `compareSteps == 0`. -/
theorem whileLoop_201_proposals :
    forEnter (0 : Int) 1000 ⟨[⟨0, 0⟩, ⟨2, 0⟩]⟩ (List.replicate 201 [0, 0, 1, 32767]).flatten =
        .running ⟨1000, ⟨[⟨0, 0⟩, ⟨2, 0⟩]⟩, 200, false,
          (List.replicate 201 [0, 0, 1, 32767]).flatten⟩ ∧
    (whileLoop isqrt (fun _ => 1) 32767 201
        (⟨1000, ⟨[⟨0, 0⟩, ⟨2, 0⟩]⟩, 200, false,
          (List.replicate 201 [0, 0, 1, 32767]).flatten⟩ : LoopState Int) 0).2 = 201 ∧
    ¬ (201 ≤ 100 * (⟨[⟨0, 0⟩, ⟨2, 0⟩]⟩ : Path).towns.length) := by
  exact ⟨rfl, by decide!, by decide⟩


/-- C16, amended. At any single temperature level, the number of neighbour proposals
generated and evaluated by the inner loop is at most `100 * m + 1`, where `m` is the
number of towns in the current path at the start of that level: the budget
`compareSteps` starts at `100 * m` and the loop still proposes at `compareSteps == 0`. -/
theorem whileLoop_proposals_le (α : Type) [Zero α] [IntCast α] [Add α] [Sub α] [Mul α]
    [Div α] [Neg α] [LT α] [∀ a b : α, Decidable (a < b)] (sqrt exp : α → α) (RAND_MAX : Int)
    (T_min T : α) (p : Path) (d : Draws) (s : LoopState α) (k : Nat)
    (h : forEnter T_min T p d = .running s) :
    (whileLoop sqrt exp RAND_MAX k s 0).2 ≤ 100 * p.towns.length + 1 := by
  have hs := forEnter_running T_min T p d s h
  subst hs
  have := (whileLoop_outcome sqrt exp RAND_MAX k
    (⟨T, p, 100 * p.towns.length, false, d⟩ : LoopState α) 0 (by simp only []; omega) rfl).1
  simp only [] at this
  omega

/-- A level on (0,0) (2,0) (1,0) (3,0) whose first proposal is accepted: 1 proposal. -/
theorem whileLoop_proposals_le_witness :
    (whileLoop isqrt (fun _ => 1) 32767 5
        (⟨1000, ⟨[⟨0, 0⟩, ⟨2, 0⟩, ⟨1, 0⟩, ⟨3, 0⟩]⟩, 400, false, [0, 0, 2, 5]⟩ : LoopState Int)
        0).2 ≤ 100 * (⟨[⟨0, 0⟩, ⟨2, 0⟩, ⟨1, 0⟩, ⟨3, 0⟩]⟩ : Path).towns.length + 1 :=
  whileLoop_proposals_le Int isqrt (fun _ => 1) 32767 0 1000
    ⟨[⟨0, 0⟩, ⟨2, 0⟩, ⟨1, 0⟩, ⟨3, 0⟩]⟩ [0, 0, 2, 5] _ 5 rfl

/-- The loop of `EuclideanDistance` adds the distances of consecutive towns, in order. -/
theorem EuclideanDistance_loop_eq_foldl {α : Type} [IntCast α] [Add α] [Mul α]
    (sqrt : α → α) :
    ∀ (l : List Town) (cost : α),
      EuclideanDistance_loop sqrt cost l =
        (List.zipWith (EuclideanDistance_ed sqrt) l l.tail).foldl (· + ·) cost
  | [], cost => rfl
  | [_], cost => rfl
  | t1 :: t2 :: rest, cost => by
    rw [EuclideanDistance_loop, EuclideanDistance_loop_eq_foldl sqrt (t2 :: rest)]
    rfl

/-- One more town at the back adds one distance, after all the others. -/
theorem EuclideanDistance_loop_push_back {α : Type} [IntCast α] [Add α] [Mul α]
    (sqrt : α → α) (x : Town) :
    ∀ (l : List Town) (cost : α) (t_last : Town), l.getLast? = some t_last →
      EuclideanDistance_loop sqrt cost (l ++ [x]) =
        EuclideanDistance_loop sqrt cost l + EuclideanDistance_ed sqrt t_last x
  | [], cost, t_last, h => by simp at h
  | [a], cost, t_last, h => by
    simp only [List.getLast?_singleton, Option.some.injEq] at h
    subst h
    simp [EuclideanDistance_loop]
  | a :: b :: rest, cost, t_last, h => by
    rw [List.getLast?_cons_cons] at h
    have ih := EuclideanDistance_loop_push_back sqrt x (b :: rest)
      (cost + EuclideanDistance_ed sqrt a b) t_last h
    simp only [List.cons_append, EuclideanDistance_loop] at ih ⊢
    exact ih

/-- C18. For every path `P` with at least 2 towns, the closed-circuit cost computed by
the loop (`EuclideanDistance` of `P` with `P[0]` pushed at the back) equals the open cost
`EuclideanDistance(P)`, which is the sum, in sequence order, of `sqrt(dx*dx + dy*dy)`
over consecutive towns, plus the distance from the last town of `P` back to its first;
both agree with the cost as the specification words it (`tourLength`). -/
theorem EuclideanDistance_closed (α : Type) [Zero α] [IntCast α] [Add α] [Mul α]
    (sqrt : α → α) (p : Path) (hp : 2 ≤ p.towns.length) :
    ∃ (c : Path) (t_first t_last : Town) (open_cost closed_cost : α),
      p.towns.head? = some t_first ∧ p.towns.getLast? = some t_last ∧
      circuit p = .ok c ∧ c.towns = p.towns ++ [t_first] ∧
      EuclideanDistance sqrt p = .ok open_cost ∧
      EuclideanDistance sqrt c = .ok closed_cost ∧
      closed_cost = open_cost + EuclideanDistance_ed sqrt t_last t_first ∧
      open_cost =
        (List.zipWith (EuclideanDistance_ed sqrt) p.towns p.towns.tail).foldl (· + ·) 0 ∧
      open_cost = tourLength sqrt p.towns false ∧
      closed_cost = tourLength sqrt p.towns true := by
  obtain ⟨towns⟩ := p
  cases towns with
  | nil => simp at hp
  | cons t ts =>
    obtain ⟨t_last, hl⟩ : ∃ t_last, (t :: ts).getLast? = some t_last :=
      ⟨(t :: ts).getLast (by simp), List.getLast?_eq_getLast _ _⟩
    have hpush := EuclideanDistance_loop_push_back sqrt t (t :: ts) 0 t_last hl
    have hfold := EuclideanDistance_loop_eq_foldl sqrt (t :: ts) 0
    refine ⟨⟨(t :: ts) ++ [t]⟩, t, t_last, EuclideanDistance_loop sqrt 0 (t :: ts),
      EuclideanDistance_loop sqrt 0 ((t :: ts) ++ [t]), rfl, hl, rfl, rfl, rfl, rfl, hpush,
      hfold, ?_, ?_⟩
    · rw [hfold]
      simp only [tourLength]
    · rw [hpush, hfold]
      simp only [tourLength, hl, List.head?_cons]

/-- The path (0,0) (2,0) (1,0) (3,0) in integer arithmetic: open cost 5, closed cost 8,
the last town being 3 away from the first. -/
theorem EuclideanDistance_closed_witness :
    ∃ (c : Path) (t_first t_last : Town) (open_cost closed_cost : Int),
      (⟨[⟨0, 0⟩, ⟨2, 0⟩, ⟨1, 0⟩, ⟨3, 0⟩]⟩ : Path).towns.head? = some t_first ∧
      (⟨[⟨0, 0⟩, ⟨2, 0⟩, ⟨1, 0⟩, ⟨3, 0⟩]⟩ : Path).towns.getLast? = some t_last ∧
      circuit ⟨[⟨0, 0⟩, ⟨2, 0⟩, ⟨1, 0⟩, ⟨3, 0⟩]⟩ = .ok c ∧
      c.towns = (⟨[⟨0, 0⟩, ⟨2, 0⟩, ⟨1, 0⟩, ⟨3, 0⟩]⟩ : Path).towns ++ [t_first] ∧
      EuclideanDistance isqrt ⟨[⟨0, 0⟩, ⟨2, 0⟩, ⟨1, 0⟩, ⟨3, 0⟩]⟩ = .ok open_cost ∧
      EuclideanDistance isqrt c = .ok closed_cost ∧
      closed_cost = open_cost + EuclideanDistance_ed isqrt t_last t_first ∧
      open_cost =
        (List.zipWith (EuclideanDistance_ed isqrt)
          (⟨[⟨0, 0⟩, ⟨2, 0⟩, ⟨1, 0⟩, ⟨3, 0⟩]⟩ : Path).towns
          (⟨[⟨0, 0⟩, ⟨2, 0⟩, ⟨1, 0⟩, ⟨3, 0⟩]⟩ : Path).towns.tail).foldl (· + ·) 0 ∧
      open_cost = tourLength isqrt (⟨[⟨0, 0⟩, ⟨2, 0⟩, ⟨1, 0⟩, ⟨3, 0⟩]⟩ : Path).towns false ∧
      closed_cost = tourLength isqrt (⟨[⟨0, 0⟩, ⟨2, 0⟩, ⟨1, 0⟩, ⟨3, 0⟩]⟩ : Path).towns true :=
  EuclideanDistance_closed Int isqrt ⟨[⟨0, 0⟩, ⟨2, 0⟩, ⟨1, 0⟩, ⟨3, 0⟩]⟩ (by decide)


/-! ## Neighbour generation stays inside the vectors -/

/-- C19. For every path with at least 2 towns, either operator choice and every
sequence of draws, neighbour generation neither leaves a vector nor divides by zero: the
call returns a path or is still waiting for a draw.  The indices `(s, e)` of
`RandomSegment` satisfy `1 ≤ s < e ≤ length`, so the slice and the erased range lie in
the path; the shortened sequence of Relocate is not empty, so the modulus of `i_rand` is
not zero; and the insertion index, `s` for Reverse and `r = i_rand(1, size)` for
Relocate, is at most the length of the shortened sequence. -/
theorem GeneratePath_no_fault (p : Path) (ct : Int) (d : Draws) (hp : 2 ≤ p.towns.length)
    (hct : ct = 0 ∨ ct = 1) :
    (GeneratePath p ct d = .error .starved ∨
      ∃ (q : Path) (d' : Draws), GeneratePath p ct d = .ok (q, d')) ∧
    (∀ (s e : Int) (d1 : Draws), RandomSegment p.towns d = .ok ((s, e), d1) →
      1 ≤ s ∧ s < e ∧ e ≤ p.towns.length ∧
      ∃ (segment rest : List Town),
        SliceVector p.towns s e = .ok segment ∧ vector_erase p.towns s e = .ok rest ∧
        (rest.length : Int) ≠ 0 ∧ s ≤ rest.length ∧
        (∃ t, vector_insert rest s segment.reverse = .ok t) ∧
        ∀ raw : Nat,
          1 ≤ i_rand 1 rest.length raw ∧ i_rand 1 rest.length raw ≤ rest.length ∧
          ∃ t, vector_insert rest (i_rand 1 rest.length raw) segment = .ok t) := by
  have hp1 : 1 ≤ p.towns.length := by omega
  constructor
  · cases hRS : RandomSegment p.towns d with
    | error f =>
      left
      have hf := RandomSegment_error p.towns hp1 d f hRS
      subst hf
      unfold GeneratePath
      dsimp only
      rw [hRS]
      rfl
    | ok v =>
      obtain ⟨⟨s, e⟩, d1⟩ := v
      obtain ⟨h1, h2, h3, -⟩ := RandomSegment_spec p.towns d s e d1 hRS
      obtain ⟨s, rfl⟩ := Int.eq_ofNat_of_zero_le (show 0 ≤ s by omega)
      obtain ⟨e, rfl⟩ := Int.eq_ofNat_of_zero_le (show 0 ≤ e by omega)
      unfold GeneratePath
      dsimp only
      rw [hRS]
      simp only [bind, Except.bind]
      rcases hct with c0 | c1
      · right
        rw [if_pos c0, Reverse_ok p.towns s e (by omega) (by omega)]
        exact ⟨_, _, rfl⟩
      · rw [if_neg (by omega), if_pos c1]
        cases d1 with
        | nil =>
          left
          rw [Relocate_starved p.towns s e (by omega) (by omega)]
        | cons r d2 =>
          right
          rw [Relocate_ok p.towns s e r d2 (by omega) (by omega) (by omega)]
          exact ⟨_, _, rfl⟩
  · intro s e d1 hRS
    obtain ⟨h1, h2, h3, -⟩ := RandomSegment_spec p.towns d s e d1 hRS
    obtain ⟨s, rfl⟩ := Int.eq_ofNat_of_zero_le (show 0 ≤ s by omega)
    obtain ⟨e, rfl⟩ := Int.eq_ofNat_of_zero_le (show 0 ≤ e by omega)
    have hse : s ≤ e := by omega
    have he : e ≤ p.towns.length := by omega
    have hlen : (p.towns.take s ++ p.towns.drop e).length = p.towns.length - (e - s) := by
      simp; omega
    refine ⟨h1, h2, h3, _, _, SliceVector_ok p.towns s e hse he,
      vector_erase_ok p.towns s e hse he, by omega, by omega,
      ⟨_, vector_insert_ok _ _ s (by omega)⟩, ?_⟩
    intro raw
    have hb := i_rand_bounds 1 ((p.towns.take s ++ p.towns.drop e).length : Int) raw
      (by omega) (by omega)
    refine ⟨hb.1, by omega, ?_⟩
    obtain ⟨r, hr⟩ := Int.eq_ofNat_of_zero_le
      (show 0 ≤ i_rand 1 ((p.towns.take s ++ p.towns.drop e).length : Int) raw by omega)
    rw [hr]
    exact ⟨_, vector_insert_ok _ _ r (by omega)⟩

/-- Relocate on (0,0) (2,0) (1,0) (3,0) with the draws `0, 2, 7`. -/
theorem GeneratePath_no_fault_witness :
    (GeneratePath ⟨[⟨0, 0⟩, ⟨2, 0⟩, ⟨1, 0⟩, ⟨3, 0⟩]⟩ 1 [0, 2, 7] = .error .starved ∨
      ∃ (q : Path) (d' : Draws),
        GeneratePath ⟨[⟨0, 0⟩, ⟨2, 0⟩, ⟨1, 0⟩, ⟨3, 0⟩]⟩ 1 [0, 2, 7] = .ok (q, d')) ∧
    (∀ (s e : Int) (d1 : Draws),
      RandomSegment (⟨[⟨0, 0⟩, ⟨2, 0⟩, ⟨1, 0⟩, ⟨3, 0⟩]⟩ : Path).towns [0, 2, 7]
        = .ok ((s, e), d1) →
      1 ≤ s ∧ s < e ∧ e ≤ (⟨[⟨0, 0⟩, ⟨2, 0⟩, ⟨1, 0⟩, ⟨3, 0⟩]⟩ : Path).towns.length ∧
      ∃ (segment rest : List Town),
        SliceVector (⟨[⟨0, 0⟩, ⟨2, 0⟩, ⟨1, 0⟩, ⟨3, 0⟩]⟩ : Path).towns s e = .ok segment ∧
        vector_erase (⟨[⟨0, 0⟩, ⟨2, 0⟩, ⟨1, 0⟩, ⟨3, 0⟩]⟩ : Path).towns s e = .ok rest ∧
        (rest.length : Int) ≠ 0 ∧ s ≤ rest.length ∧
        (∃ t, vector_insert rest s segment.reverse = .ok t) ∧
        ∀ raw : Nat,
          1 ≤ i_rand 1 rest.length raw ∧ i_rand 1 rest.length raw ≤ rest.length ∧
          ∃ t, vector_insert rest (i_rand 1 rest.length raw) segment = .ok t) :=
  GeneratePath_no_fault ⟨[⟨0, 0⟩, ⟨2, 0⟩, ⟨1, 0⟩, ⟨3, 0⟩]⟩ 1 [0, 2, 7] (by decide) (by decide)


end TravelingSA
